import Mathlib

/-!
Verification of the Kensington board game core (src/src/gameBoard.js).

Shallow embedding conventions:
* JS numbers are modelled as rationals (ℚ).  All comparisons the source makes
  through Math.sqrt are expressed on squared distances (for nonnegative bounds
  a < sqrt s < b iff a^2 < s < b^2), so every definition stays executable.
* The vertex list and the per-hexagon member-vertex lists are derived by the
  rendering layer from the canvas dimensions (window size); the game logic only
  reads them.  They are therefore parameters of the embedding, collected in a
  `Board` value, while every rule function is translated from the source.
* Methods that mutate `this` become functions `GameState → GameState`.
-/

namespace Kensington

/-- A 2D point (a board vertex position), JS {x, y}. -/
structure Pt where
  x : ℚ
  y : ℚ
deriving DecidableEq, Repr

/-- A token, JS {x, y, color}. -/
inductive Color where
  | red
  | blue
deriving DecidableEq, Repr

structure Token where
  x : ℚ
  y : ℚ
  color : Color
deriving DecidableEq, Repr

/-- Value of `this.gameState` ('placement' or 'movement'). -/
inductive Phase where
  | placement
  | movement
deriving DecidableEq, Repr

/-- Value of `this.millRemovalState` (null or 'removing'; the source comments
mention 'completed' but never assigns it). -/
inductive MillPhase where
  | idle
  | removing
deriving DecidableEq, Repr

/-- Highlight kind stored in `highlightedMillTokens` ('triangle'/'square'/'both'). -/
inductive HType where
  | triangle
  | square
  | both
deriving DecidableEq, Repr

/-- Mill shape type tag ('triangle' or 'square'). -/
inductive MillType where
  | triangle
  | square
deriving DecidableEq, Repr

/-- JS Math.round: round half toward positive infinity. -/
def jsRound (q : ℚ) : ℤ := ⌊q + 1/2⌋

/-!
## Board topology builder
-/

/-- processVertices (gameBoard.js:526): fold every corner into the vertex list,
appending it as a new vertex only when no existing vertex is within the 5-unit
tolerance on both axes (the first sample of a cluster becomes the canonical
vertex; a later sample within tolerance is folded into it). -/
def processVertices (vertices : List Pt) (corners : List Pt) : List Pt :=
  corners.foldl
    (fun vs corner =>
      if vs.any (fun v => decide (|v.x - corner.x| < 5 ∧ |v.y - corner.y| < 5)) then vs
      else vs ++ [corner])
    vertices

/-- The signature test of hasActualDrawnLine (gameBoard.js:1012) as a function of
dx = |Δx|, dy = |Δy|.  The source computes distance = sqrt(dx^2+dy^2) and tests
15 < distance < 40; we test the squared distance against 225 and 1600, which is
equivalent for nonnegative bounds.  The atan2-based windows are translated as
slope comparisons: with dx, dy ≥ 0 the angle lies in [0°, 90°], so the
(115°,125°) and (145°,155°) windows of the source can never fire, and
25° < angle < 35° (resp. 55° < angle < 65°) holds iff dx > 0 and
tan 25° < dy/dx < tan 35° (resp. tan 55° < dy/dx < tan 65°).  The tangent
bounds are irrational; we use rational approximations.  The approximation is
extensionally harmless: each angle window lies strictly inside a ratio window
tested right below it — see angle_window_subsumed — so any constants inside
(0.4, 0.8) resp. (1.25, 2.5) give the same overall function. -/
def drawnSig (dx dy : ℚ) : Bool :=
  let tolerance : ℚ := 3
  let d2 := dx ^ 2 + dy ^ 2
  if 225 < d2 ∧ d2 < 1600 then
    -- Horizontal square edge (same Y coordinate, different X)
    if dy < tolerance ∧ 15 < dx ∧ dx < 40 then true
    -- Vertical square edge (same X coordinate, different Y)
    else if dx < tolerance ∧ 15 < dy ∧ dy < 40 then true
    -- 45-degree diagonal square edge (equal dx and dy)
    else if |dx - dy| < tolerance ∧ 15 < dx ∧ dx < 35 ∧ 15 < dy ∧ dy < 35 then true
    -- ~30 degree angle window: 25 < atan2(dy,dx)·180/π < 35
    else if 0 < dx ∧ 46631/100000 * dx < dy ∧ dy < 70021/100000 * dx then true
    -- ~60 degree angle window: 55 < atan2(dy,dx)·180/π < 65
    else if 0 < dx ∧ 142815/100000 * dx < dy ∧ dy < 214451/100000 * dx then true
    -- ratio = dx > 0 ? dy/dx : (dy > 0 ? Infinity : 1); Infinity is in no window
    else if 0 < dx ∧ ((2/5 < dy / dx ∧ dy / dx < 4/5) ∨ (5/4 < dy / dx ∧ dy / dx < 5/2)) then true
    else if 0 < dx ∧ ((7/5 < dy / dx ∧ dy / dx < 11/5) ∨ (9/20 < dy / dx ∧ dy / dx < 4/5)) then true
    -- dx = 0, dy = 0 gives ratio = 1, which lies in none of the four windows
    -- (and is unreachable anyway: d2 = 0 fails the distance guard)
    else if dx = 0 ∧ dy = 0 ∧ ((2/5 < (1:ℚ) ∧ (1:ℚ) < 4/5) ∨ (5/4 < (1:ℚ) ∧ (1:ℚ) < 5/2) ∨
        (7/5 < (1:ℚ) ∧ (1:ℚ) < 11/5) ∨ (9/20 < (1:ℚ) ∧ (1:ℚ) < 4/5)) then true
    else false
  else false

/-- hasActualDrawnLine (gameBoard.js:1012): is there an actually drawn segment
between the two vertices?  The body only depends on |Δx| and |Δy|. -/
def hasActualDrawnLine (v1 v2 : Pt) : Bool :=
  drawnSig |v1.x - v2.x| |v1.y - v2.y|

/-- isAdjacent (gameBoard.js:1352). -/
def isAdjacent (v1 v2 : Pt) : Bool :=
  hasActualDrawnLine v1 v2

/-- The first angle window implies the first ratio window and the second angle
window implies the second ratio window: the rational approximations of the
tangent bounds are strictly inside the ratio windows, so the exact constants
used for them cannot change the value of drawnSig. -/
theorem angle_window_subsumed (dx dy : ℚ) (hdx : 0 < dx) :
    ((46631/100000 * dx < dy ∧ dy < 70021/100000 * dx) →
      (2/5 < dy / dx ∧ dy / dx < 4/5)) ∧
    ((142815/100000 * dx < dy ∧ dy < 214451/100000 * dx) →
      (5/4 < dy / dx ∧ dy / dx < 5/2)) := by
  constructor
  · rintro ⟨h1, h2⟩
    constructor
    · rw [lt_div_iff₀ hdx]
      calc (2/5 : ℚ) * dx < 46631/100000 * dx := by nlinarith
        _ < dy := h1
    · rw [div_lt_iff₀ hdx]
      calc dy < 70021/100000 * dx := h2
        _ < 4/5 * dx := by nlinarith
  · rintro ⟨h1, h2⟩
    constructor
    · rw [lt_div_iff₀ hdx]
      calc (5/4 : ℚ) * dx < 142815/100000 * dx := by nlinarith
        _ < dy := h1
    · rw [div_lt_iff₀ hdx]
      calc dy < 214451/100000 * dx := h2
        _ < 5/2 * dx := by nlinarith

/-- "vertex within tolerance of corner" test used by processVertices. -/
def nearTol (v c : Pt) : Prop :=
  |v.x - c.x| < 5 ∧ |v.y - c.y| < 5

instance (v c : Pt) : Decidable (nearTol v c) := by
  unfold nearTol; infer_instance

theorem processVertices_cons (vs : List Pt) (c : Pt) (cs : List Pt) :
    processVertices vs (c :: cs) =
      processVertices (if vs.any (fun v => decide (|v.x - c.x| < 5 ∧ |v.y - c.y| < 5))
        then vs else vs ++ [c]) cs := rfl

theorem processVertices_append (vs s t : List Pt) :
    processVertices vs (s ++ t) = processVertices (processVertices vs s) t :=
  List.foldl_append _ _ _ _

theorem mem_processVertices_of_mem {v : Pt} (cs : List Pt) (vs : List Pt) (hv : v ∈ vs) :
    v ∈ processVertices vs cs := by
  induction cs generalizing vs with
  | nil => exact hv
  | cons c cs ih =>
    rw [processVertices_cons]
    split
    · exact ih vs hv
    · exact ih (vs ++ [c]) (List.mem_append_left _ hv)

/-- Every processed corner ends up within tolerance of some output vertex. -/
theorem processVertices_covers {c : Pt} (cs : List Pt) (vs : List Pt) (hc : c ∈ cs) :
    ∃ v ∈ processVertices vs cs, nearTol v c := by
  induction cs generalizing vs with
  | nil => cases hc
  | cons c' cs ih =>
    rw [processVertices_cons]
    by_cases hany : (vs.any fun v => decide (|v.x - c'.x| < 5 ∧ |v.y - c'.y| < 5)) = true
    · rw [if_pos hany]
      rcases List.mem_cons.mp hc with rfl | hc'
      · rcases List.any_eq_true.mp hany with ⟨v, hv, hvc⟩
        exact ⟨v, mem_processVertices_of_mem cs vs hv, of_decide_eq_true hvc⟩
      · exact ih vs hc'
    · rw [if_neg hany]
      rcases List.mem_cons.mp hc with rfl | hc'
      · refine ⟨c, mem_processVertices_of_mem cs _
          (List.mem_append_right _ (List.mem_singleton.mpr rfl)), ?_⟩
        constructor <;> simp
      · exact ih _ hc'

/-- If every corner is already within tolerance of an existing vertex,
processVertices adds nothing. -/
theorem processVertices_stable (cs : List Pt) (vs : List Pt)
    (h : ∀ c ∈ cs, ∃ v ∈ vs, nearTol v c) :
    processVertices vs cs = vs := by
  induction cs with
  | nil => rfl
  | cons c cs ih =>
    rw [processVertices_cons]
    rcases h c (List.mem_cons_self c cs) with ⟨v, hv, hvc⟩
    have hany : vs.any (fun v => decide (|v.x - c.x| < 5 ∧ |v.y - c.y| < 5)) = true :=
      List.any_eq_true.mpr ⟨v, hv, decide_eq_true hvc⟩
    rw [if_pos hany]
    exact ih (fun c' hc' => h c' (List.mem_cons_of_mem _ hc'))

/-- The output vertices stay pairwise out of tolerance of each other. -/
theorem processVertices_pairwise (cs : List Pt) (vs : List Pt)
    (h : vs.Pairwise (fun a b => ¬ nearTol a b)) :
    (processVertices vs cs).Pairwise (fun a b => ¬ nearTol a b) := by
  induction cs generalizing vs with
  | nil => exact h
  | cons c cs ih =>
    rw [processVertices_cons]
    by_cases hany : (vs.any fun v => decide (|v.x - c.x| < 5 ∧ |v.y - c.y| < 5)) = true
    · rw [if_pos hany]
      exact ih vs h
    · rw [if_neg hany]
      refine ih (vs ++ [c]) ?_
      rw [List.pairwise_append]
      refine ⟨h, List.pairwise_singleton _ _, ?_⟩
      intro a ha b hb
      rw [List.mem_singleton] at hb
      subst hb
      intro hn
      exact hany (List.any_eq_true.mpr ⟨a, ha, decide_eq_true hn⟩)

/-- C6: vertex deduplication is idempotent — feeding a corner sequence twice
(equivalently, processing it a second time over the result of the first pass)
yields exactly the vertex set of one pass; an empty input yields an empty
vertex set; and no two output vertices lie within the 5-unit tolerance of each
other. -/
theorem processVertices_dedup_idempotent (s : List Pt) :
    processVertices [] (s ++ s) = processVertices [] s ∧
    processVertices (processVertices [] s) s = processVertices [] s ∧
    processVertices ([] : List Pt) [] = [] ∧
    (processVertices [] s).Pairwise (fun a b => ¬ (|a.x - b.x| < 5 ∧ |a.y - b.y| < 5)) := by
  have hsecond : processVertices (processVertices [] s) s = processVertices [] s :=
    processVertices_stable s _ (fun c hc => processVertices_covers s [] hc)
  refine ⟨?_, hsecond, rfl, ?_⟩
  · rw [processVertices_append]
    exact hsecond
  · exact processVertices_pairwise s [] (List.Pairwise.nil)

/-- C5: the adjacency predicate is symmetric and irreflexive: it only depends
on the absolute coordinate differences of its two arguments, and the zero
distance of a vertex to itself fails the length window of every signature. -/
theorem isAdjacent_symm_irrefl (a b : Pt) :
    isAdjacent a b = isAdjacent b a ∧ isAdjacent a a = false := by
  constructor
  · unfold isAdjacent hasActualDrawnLine
    rw [abs_sub_comm a.x b.x, abs_sub_comm a.y b.y]
  · unfold isAdjacent hasActualDrawnLine
    rw [sub_self, sub_self, abs_zero]
    with_unfolding_all rfl

/-!
## Mill rule engine
-/

/-- Geometry-derived data the game logic reads: the deduplicated vertex list
(rebuilt by render from the canvas dimensions) and, for each hexagon number,
the member vertices computed by getHexagonCenter and getHexagonVertices
(gameBoard.js:1839, 1896), both functions of the canvas layout.  Hexagon
numbers outside 1..7 have no center (getHexagonCenter returns null). -/
structure Board where
  vertices : List Pt
  hexMembers : ℕ → List Pt

/-- getTokenAt (gameBoard.js:1345): the first token within 1 unit of (x, y) on
both axes. -/
def getTokenAt (tokens : List Token) (x y : ℚ) : Option Token :=
  tokens.find? (fun t => decide (|t.x - x| < 1 ∧ |t.y - y| < 1))

/-- createMillId (gameBoard.js:1476) identifies a mill by its type together
with its vertex coordinates rounded by Math.round.  The source renders the
rounded pairs as strings, sorts them and joins them into one id string; two
mills receive the same id exactly when they have the same type and the same
multiset of rounded coordinate pairs, which is the value modelled here. -/
structure MillId where
  type : MillType
  coords : Multiset (ℤ × ℤ)
deriving DecidableEq

def createMillId (mill : List Pt) (ty : MillType) : MillId :=
  ⟨ty, (mill.map (fun v => (jsRound v.x, jsRound v.y)) : List (ℤ × ℤ))⟩

/-- previousMills is a JS Set of id strings; Set.add keeps the set unchanged
when the id is already present and appends it otherwise. -/
def addMillId (prev : List MillId) (m : MillId) : List MillId :=
  if m ∈ prev then prev else prev ++ [m]

/-- wasMillPreviouslyFormed (gameBoard.js:1458). -/
def wasMillPreviouslyFormed (prev : List MillId) (mill : List Pt) (ty : MillType) : Bool :=
  decide (createMillId mill ty ∈ prev)

/-- updatePreviouslyFormedMills (gameBoard.js:1464): add all current mills,
new or repeat, to the previously-formed set. -/
def updatePreviouslyFormedMills (prev : List MillId)
    (triangleMills squareMills : List (List Pt)) : List MillId :=
  let p1 := triangleMills.foldl (fun acc m => addMillId acc (createMillId m .triangle)) prev
  squareMills.foldl (fun acc m => addMillId acc (createMillId m .square)) p1

/-- All pairs (l[i], l[j]) with i < j, in the order of the source's nested
loops. -/
def pairsOf {α : Type} : List α → List (α × α)
  | [] => []
  | a :: rest => rest.map (fun b => (a, b)) ++ pairsOf rest

/-- All triples (l[i], l[j], l[k]) with i < j < k, in nested-loop order. -/
def triplesOf {α : Type} : List α → List (α × α × α)
  | [] => []
  | a :: rest => (pairsOf rest).map (fun p => (a, p.1, p.2)) ++ triplesOf rest

/-- All quadruples with i < j < k < l, in nested-loop order. -/
def quadsOf {α : Type} : List α → List (α × α × α × α)
  | [] => []
  | a :: rest => (triplesOf rest).map (fun p => (a, p.1, p.2.1, p.2.2)) ++ quadsOf rest

/-- isTriangleMill (gameBoard.js:1611): the three vertices carry same-colored
tokens and all three edges are actually drawn lines (the source counts the
connected edges and demands the count be 3). -/
def isTriangleMill (tokens : List Token) (v1 v2 v3 : Pt) : Bool :=
  match getTokenAt tokens v1.x v1.y with
  | none => false
  | some firstToken =>
    let playerColor := firstToken.color
    if ([v1, v2, v3]).all (fun v =>
        match getTokenAt tokens v.x v.y with
        | some t => decide (t.color = playerColor)
        | none => false) then
      decide (((if hasActualDrawnLine v1 v2 then 1 else 0) +
        (if hasActualDrawnLine v1 v3 then 1 else 0) +
        (if hasActualDrawnLine v2 v3 then 1 else 0) : ℕ) = 3)
    else false

/-- One cyclic run of four adjacency tests, including the wraparound pair. -/
def cycleAdj (a b c d : Pt) : Bool :=
  hasActualDrawnLine a b && hasActualDrawnLine b c &&
    hasActualDrawnLine c d && hasActualDrawnLine d a

/-- The six vertex orders tried by isSquareMill — the index sequences
[0,1,2,3], [0,1,3,2], [0,2,1,3], [0,2,3,1], [0,3,1,2], [0,3,2,1] applied to
(v1,v2,v3,v4): the 6 distinct cyclic orderings of four elements. -/
def squareOrderings (v1 v2 v3 v4 : Pt) : List (Pt × Pt × Pt × Pt) :=
  [(v1, v2, v3, v4), (v1, v2, v4, v3), (v1, v3, v2, v4),
   (v1, v3, v4, v2), (v1, v4, v2, v3), (v1, v4, v3, v2)]

/-- isSquareMill (gameBoard.js:1646): the four vertices carry same-colored
tokens and some cyclic ordering of them has every consecutive pair (with
wraparound) connected by a drawn line. -/
def isSquareMill (tokens : List Token) (v1 v2 v3 v4 : Pt) : Bool :=
  match getTokenAt tokens v1.x v1.y with
  | none => false
  | some firstToken =>
    let playerColor := firstToken.color
    if ([v1, v2, v3, v4]).all (fun v =>
        match getTokenAt tokens v.x v.y with
        | some t => decide (t.color = playerColor)
        | none => false) then
      (squareOrderings v1 v2 v3 v4).any (fun q => cycleAdj q.1 q.2.1 q.2.2.1 q.2.2.2)
    else false

/-- The vertices occupied by the given player (gameBoard.js:1490, 1523). -/
def playerVerticesOf (verts : List Pt) (tokens : List Token) (player : Color) : List Pt :=
  verts.filter (fun v =>
    match getTokenAt tokens v.x v.y with
    | some t => decide (t.color = player)
    | none => false)

/-- The includesMovedToken test of findTriangleMills and findSquareMills. -/
def includesMoved (vs : List Pt) (x y : ℚ) : Bool :=
  vs.any (fun v => decide (|v.x - x| < 1 ∧ |v.y - y| < 1))

/-- findTriangleMills (gameBoard.js:1485): all 3-subsets of the player's
occupied vertices (nested-loop order) that include the moved token and form a
triangle mill. -/
def findTriangleMills (verts : List Pt) (tokens : List Token) (player : Color)
    (x y : ℚ) : List (List Pt) :=
  let playerVertices := playerVerticesOf verts tokens player
  (triplesOf playerVertices).filterMap (fun t =>
    if includesMoved [t.1, t.2.1, t.2.2] x y && isTriangleMill tokens t.1 t.2.1 t.2.2
    then some [t.1, t.2.1, t.2.2] else none)

/-- findSquareMills (gameBoard.js:1518): all 4-subsets of the player's
occupied vertices (nested-loop order) that include the moved token and form a
square mill. -/
def findSquareMills (verts : List Pt) (tokens : List Token) (player : Color)
    (x y : ℚ) : List (List Pt) :=
  let playerVertices := playerVerticesOf verts tokens player
  (quadsOf playerVertices).filterMap (fun q =>
    if includesMoved [q.1, q.2.1, q.2.2.1, q.2.2.2] x y &&
        isSquareMill tokens q.1 q.2.1 q.2.2.1 q.2.2.2
    then some [q.1, q.2.1, q.2.2.1, q.2.2.2] else none)

theorem mem_pairsOf {α : Type} {l : List α} {a b : α} :
    (a, b) ∈ pairsOf l ↔ [a, b].Sublist l := by
  induction l with
  | nil => simp [pairsOf]
  | cons x rest ih =>
    constructor
    · intro h
      rcases List.mem_append.mp h with hmap | hrec
      · rcases List.mem_map.mp hmap with ⟨b', hb', heq⟩
        injection heq with h1 h2
        subst h1
        subst h2
        exact List.Sublist.cons₂ _ (List.singleton_sublist.mpr hb')
      · exact List.Sublist.cons x (ih.mp hrec)
    · intro h
      cases h with
      | cons _ h' =>
        exact List.mem_append_right _ (ih.mpr h')
      | cons₂ _ h' =>
        exact List.mem_append_left _
          (List.mem_map.mpr ⟨b, List.singleton_sublist.mp h', rfl⟩)

theorem mem_triplesOf {α : Type} {l : List α} {a b c : α} :
    (a, b, c) ∈ triplesOf l ↔ [a, b, c].Sublist l := by
  induction l with
  | nil => simp [triplesOf]
  | cons x rest ih =>
    constructor
    · intro h
      rcases List.mem_append.mp h with hmap | hrec
      · rcases List.mem_map.mp hmap with ⟨p, hp, heq⟩
        injection heq with h1 h2
        subst h1
        have hp' : (b, c) ∈ pairsOf rest := by
          obtain ⟨p1, p2⟩ := p
          injection h2 with h3 h4
          subst h3; subst h4
          exact hp
        exact List.Sublist.cons₂ _ (mem_pairsOf.mp hp')
      · exact List.Sublist.cons x (ih.mp hrec)
    · intro h
      cases h with
      | cons _ h' =>
        exact List.mem_append_right _ (ih.mpr h')
      | cons₂ _ h' =>
        exact List.mem_append_left _
          (List.mem_map.mpr ⟨(b, c), mem_pairsOf.mpr h', rfl⟩)

theorem mem_quadsOf {α : Type} {l : List α} {a b c d : α} :
    (a, b, c, d) ∈ quadsOf l ↔ [a, b, c, d].Sublist l := by
  induction l with
  | nil => simp [quadsOf]
  | cons x rest ih =>
    constructor
    · intro h
      rcases List.mem_append.mp h with hmap | hrec
      · rcases List.mem_map.mp hmap with ⟨p, hp, heq⟩
        injection heq with h1 h2
        subst h1
        have hp' : (b, c, d) ∈ triplesOf rest := by
          obtain ⟨p1, p2, p3⟩ := p
          injection h2 with h3 h4
          subst h3
          injection h4 with h5 h6
          subst h5; subst h6
          exact hp
        exact List.Sublist.cons₂ _ (mem_triplesOf.mp hp')
      · exact List.Sublist.cons x (ih.mp hrec)
    · intro h
      cases h with
      | cons _ h' =>
        exact List.mem_append_right _ (ih.mpr h')
      | cons₂ _ h' =>
        exact List.mem_append_left _
          (List.mem_map.mpr ⟨(b, c, d), mem_triplesOf.mpr h', rfl⟩)

/-- C4: a 4-subset of the mover's occupied vertices is detected as a square
mill iff one of the 6 distinct cyclic orderings of the four vertices has every
consecutive pair (including the wraparound pair) connected by a drawn line;
and findSquareMills returns exactly the 4-subsets of the player's occupied
vertices that contain the just-moved vertex and pass that test. -/
theorem isSquareMill_iff_cycle (verts : List Pt) (tokens : List Token) (p : Color)
    (x y : ℚ) (v1 v2 v3 v4 : Pt)
    (h1 : ∃ t, getTokenAt tokens v1.x v1.y = some t ∧ t.color = p)
    (h2 : ∃ t, getTokenAt tokens v2.x v2.y = some t ∧ t.color = p)
    (h3 : ∃ t, getTokenAt tokens v3.x v3.y = some t ∧ t.color = p)
    (h4 : ∃ t, getTokenAt tokens v4.x v4.y = some t ∧ t.color = p) :
    (isSquareMill tokens v1 v2 v3 v4 = true ↔
      ∃ q ∈ squareOrderings v1 v2 v3 v4, cycleAdj q.1 q.2.1 q.2.2.1 q.2.2.2 = true) ∧
    (∀ m, m ∈ findSquareMills verts tokens p x y ↔
      ∃ a b c d : Pt, m = [a, b, c, d] ∧
        [a, b, c, d].Sublist (playerVerticesOf verts tokens p) ∧
        includesMoved [a, b, c, d] x y = true ∧
        isSquareMill tokens a b c d = true) := by
  constructor
  · obtain ⟨t1, ht1, hc1⟩ := h1
    obtain ⟨t2, ht2, hc2⟩ := h2
    obtain ⟨t3, ht3, hc3⟩ := h3
    obtain ⟨t4, ht4, hc4⟩ := h4
    unfold isSquareMill
    rw [ht1]
    have hall : ([v1, v2, v3, v4]).all (fun v =>
        match getTokenAt tokens v.x v.y with
        | some t => decide (t.color = t1.color)
        | none => false) = true := by
      simp [List.all_cons, ht1, ht2, ht3, ht4, hc1, hc2, hc3, hc4]
    simp only [hall, if_true]
    exact List.any_eq_true
  · intro m
    simp only [findSquareMills, List.mem_filterMap]
    constructor
    · rintro ⟨⟨a, b, c, d⟩, hq, hsome⟩
      by_cases hcond : (includesMoved [a, b, c, d] x y &&
          isSquareMill tokens a b c d) = true
      · rw [if_pos hcond] at hsome
        obtain ⟨hinc, hsq⟩ := Bool.and_eq_true_iff.mp hcond
        injection hsome with hm
        exact ⟨a, b, c, d, hm.symm, mem_quadsOf.mp hq, hinc, hsq⟩
      · rw [if_neg hcond] at hsome
        cases hsome
    · rintro ⟨a, b, c, d, rfl, hsub, hinc, hsq⟩
      refine ⟨(a, b, c, d), mem_quadsOf.mpr hsub, ?_⟩
      rw [if_pos (Bool.and_eq_true_iff.mpr ⟨hinc, hsq⟩)]

/-- Four red tokens on an axis-aligned square of side 20, a concrete
evaluation instance for the mill tests. -/
def sqTokens : List Token :=
  [⟨0, 0, .red⟩, ⟨20, 0, .red⟩, ⟨20, 20, .red⟩, ⟨0, 20, .red⟩]

theorem isSquareMill_iff_cycle_witness :
    isSquareMill sqTokens ⟨0, 0⟩ ⟨20, 0⟩ ⟨20, 20⟩ ⟨0, 20⟩ = true := by
  have h := (isSquareMill_iff_cycle [] sqTokens .red 0 0 ⟨0, 0⟩ ⟨20, 0⟩ ⟨20, 20⟩ ⟨0, 20⟩
      ⟨⟨0, 0, .red⟩, by with_unfolding_all rfl, rfl⟩
      ⟨⟨20, 0, .red⟩, by with_unfolding_all rfl, rfl⟩
      ⟨⟨20, 20, .red⟩, by with_unfolding_all rfl, rfl⟩
      ⟨⟨0, 20, .red⟩, by with_unfolding_all rfl, rfl⟩).1
  refine h.mpr ⟨(⟨0, 0⟩, ⟨20, 0⟩, ⟨20, 20⟩, ⟨0, 20⟩), ?_, ?_⟩
  · simp [squareOrderings]
  · with_unfolding_all rfl

/-!
## Game state machine
-/

/-- maxTokensPerPlayer (gameBoard.js:20). -/
def maxTokensPerPlayer : ℕ := 15

/-- The mutable game fields of GameBoard (gameBoard.js:16-32). -/
structure GameState where
  gameState : Phase
  currentPlayer : Color
  redTokensPlaced : ℕ
  blueTokensPlaced : ℕ
  tokens : List Token
  selectedVertex : Option Pt
  gameWinner : Option Color
  gameMessage : String
  millRemovalState : MillPhase
  highlightedMillTokens : List (Pt × HType)
  millShapes : List (List Pt × MillType)
  previousMills : List MillId
  remainingOpponentMoves : ℕ
  movedOpponentTokens : List Token
deriving DecidableEq

def capName : Color → String
  | .red => "Red"
  | .blue => "Blue"

def colorName : Color → String
  | .red => "red"
  | .blue => "blue"

def plural (n : ℕ) : String := if n > 1 then "s" else ""

/-- The state set up by the constructor, initializeGame and resetGame. -/
def initialState : GameState :=
  { gameState := .placement
    currentPlayer := .red
    redTokensPlaced := 0
    blueTokensPlaced := 0
    tokens := []
    selectedVertex := none
    gameWinner := none
    gameMessage := "Red player's turn. " ++ toString maxTokensPerPlayer ++
      " tokens to place."
    millRemovalState := .idle
    highlightedMillTokens := []
    millShapes := []
    previousMills := []
    remainingOpponentMoves := 0
    movedOpponentTokens := [] }

/-- switchPlayer (gameBoard.js:1357).  The subtraction is on ℕ; in reachable
states the placed counts never exceed maxTokensPerPlayer. -/
def switchPlayer (s : GameState) : GameState :=
  let p := if s.currentPlayer = .red then Color.blue else Color.red
  let msg :=
    if s.gameState = .placement then
      let tokensLeft := maxTokensPerPlayer -
        (if p = .red then s.redTokensPlaced else s.blueTokensPlaced)
      capName p ++ " player's turn. " ++ toString tokensLeft ++
        " tokens left to place."
    else
      capName p ++ " player's turn. Click a token to move."
  { s with currentPlayer := p, gameMessage := msg }

/-- Hexagons whose surrounding wins for red (red hexagons 1, 2 and the white
hexagons 3, 4, 5; gameBoard.js:1792). -/
def redWinHexagons : List ℕ := [1, 2, 3, 4, 5]

/-- Hexagons whose surrounding wins for blue (white 3, 4, 5, blue 6, 7). -/
def blueWinHexagons : List ℕ := [3, 4, 5, 6, 7]

/-- isHexagonSurrounded (gameBoard.js:1814): every member vertex of the
hexagon (the members are derived from the canvas geometry, see Board) is
occupied by the player, and there are at least 6 of them.  A hexagon number
without a center (outside 1..7) yields false. -/
def isHexagonSurrounded (b : Board) (tokens : List Token) (n : ℕ) (c : Color) : Bool :=
  if 1 ≤ n ∧ n ≤ 7 then
    let hv := b.hexMembers n
    let surroundedCount := (hv.filter (fun v =>
      match getTokenAt tokens v.x v.y with
      | some t => decide (t.color = c)
      | none => false)).length
    decide (hv.length ≥ 6 ∧ surroundedCount = hv.length)
  else false

/-- checkForWin (gameBoard.js:1787): red-eligible hexagons are examined first
and the first surrounded one wins for red; otherwise the blue-eligible
hexagons are examined for blue. -/
def checkForWin (b : Board) (s : GameState) : GameState :=
  match redWinHexagons.find? (fun n => isHexagonSurrounded b s.tokens n .red) with
  | some n =>
    { s with gameWinner := some .red,
             gameMessage := "Red wins by surrounding hexagon " ++ toString n ++ "!" }
  | none =>
    match blueWinHexagons.find? (fun n => isHexagonSurrounded b s.tokens n .blue) with
    | some n =>
      { s with gameWinner := some .blue,
               gameMessage := "Blue wins by surrounding hexagon " ++ toString n ++ "!" }
    | none => s

/-- The insertion-ordered map vertexMillTypes (gameBoard.js:1392): setting an
already-present key marks it 'both' in place; a new key is appended with the
given type.  The map key is the string x + "," + y, which separates two
vertices exactly when their coordinates differ. -/
def setHType (acc : List (Pt × HType)) (v : Pt) (t : HType) : List (Pt × HType) :=
  if acc.any (fun e => decide (e.1 = v)) then
    acc.map (fun e => if e.1 = v then (e.1, HType.both) else e)
  else acc ++ [(v, t)]

def addMillVertices (acc : List (Pt × HType)) (mill : List Pt) (t : HType) :
    List (Pt × HType) :=
  mill.foldl (fun a v => setHType a v t) acc

/-- The highlightedMillTokens list built from the vertexMillTypes map:
triangle mills are processed first, then square mills. -/
def buildHighlights (newTri newSq : List (List Pt)) : List (Pt × HType) :=
  let m1 := newTri.foldl (fun a mill => addMillVertices a mill .triangle) []
  newSq.foldl (fun a mill => addMillVertices a mill .square) m1

/-- checkForMills (gameBoard.js:1367): find the mills through the moved token,
keep the ones not previously formed, record all detected mills as previously
formed, and when new mills exist enter the mill-removal sub-phase with
min(triangles*1 + squares*2, 2) opponent moves.  Returns the source's boolean
result together with the updated state. -/
def checkForMills (b : Board) (s : GameState) (x y : ℚ) : Bool × GameState :=
  match getTokenAt s.tokens x y with
  | none => (false, s)
  | some tok =>
    let player := tok.color
    let s1 := { s with highlightedMillTokens := [], millShapes := [] }
    let triangleMills := findTriangleMills b.vertices s1.tokens player x y
    let squareMills := findSquareMills b.vertices s1.tokens player x y
    let newTriangleMills := triangleMills.filter
      (fun m => !wasMillPreviouslyFormed s1.previousMills m .triangle)
    let newSquareMills := squareMills.filter
      (fun m => !wasMillPreviouslyFormed s1.previousMills m .square)
    let s2 := { s1 with previousMills :=
      updatePreviouslyFormedMills s1.previousMills triangleMills squareMills }
    let totalTriangleMills := newTriangleMills.length
    let totalSquareMills := newSquareMills.length
    let totalMills := totalTriangleMills + totalSquareMills
    if totalMills > 0 then
      let shapes := newTriangleMills.map (fun m => (m, MillType.triangle)) ++
        newSquareMills.map (fun m => (m, MillType.square))
      let highlighted := buildHighlights newTriangleMills newSquareMills
      let allowedMoves := min (totalTriangleMills * 1 + totalSquareMills * 2) 2
      let desc := (if totalTriangleMills > 0 then
          [toString totalTriangleMills ++ " triangle mill" ++ plural totalTriangleMills]
        else []) ++
        (if totalSquareMills > 0 then
          [toString totalSquareMills ++ " square mill" ++ plural totalSquareMills]
        else [])
      (true, { s2 with
        millShapes := shapes
        highlightedMillTokens := highlighted
        millRemovalState := .removing
        remainingOpponentMoves := allowedMoves
        movedOpponentTokens := []
        gameMessage := capName player ++ " formed " ++ String.intercalate " and " desc ++
          "! You may move " ++ toString allowedMoves ++ " opponent token" ++
          plural allowedMoves ++ " to empty vertices." })
    else (false, s2)

/-- The token push and per-player counter increment of handlePlacement. -/
def placeToken (s : GameState) (v : Pt) : GameState :=
  let s1 := { s with tokens := s.tokens ++ [Token.mk v.x v.y s.currentPlayer] }
  if s.currentPlayer = .red then { s1 with redTokensPlaced := s1.redTokensPlaced + 1 }
  else { s1 with blueTokensPlaced := s1.blueTokensPlaced + 1 }

/-- handlePlacement (gameBoard.js:1202): an occupied vertex is a no-op;
otherwise place the token, run win detection, then transition to movement when
both quotas are complete, and otherwise switch players unless a winner was
just detected. -/
def handlePlacement (b : Board) (s : GameState) (v : Pt) : GameState :=
  if (getTokenAt s.tokens v.x v.y).isSome then s
  else
    let s1 := checkForWin b (placeToken s v)
    if s1.redTokensPlaced = maxTokensPerPlayer ∧ s1.blueTokensPlaced = maxTokensPerPlayer then
      { s1 with
        gameState := .movement
        currentPlayer := .red
        gameMessage := "Movement phase started! Red player goes first. Click a token to select it, then click an adjacent empty vertex to move." }
    else if s1.gameWinner = none then switchPlayer s1
    else s1

/-- tokens.findIndex of the first token within 1 unit of the selected vertex,
followed by the in-place coordinate update tokens[i].x = x; tokens[i].y = y.
Returns none when findIndex yields -1; otherwise the updated list together
with the moved token's new value (the object pushed to movedOpponentTokens). -/
def moveSelectedToken : List Token → Pt → ℚ → ℚ → Option (List Token × Token)
  | [], _, _, _ => none
  | t :: ts, sel, x, y =>
    if |t.x - sel.x| < 1 ∧ |t.y - sel.y| < 1 then
      some (({ t with x := x, y := y }) :: ts, { t with x := x, y := y })
    else
      match moveSelectedToken ts sel x y with
      | some (ts', moved) => some (t :: ts', moved)
      | none => none

/-- handleMovement (gameBoard.js:1234), covering the mill-removal sub-phase
and the normal select/move flow. -/
def handleMovement (b : Board) (s : GameState) (v : Pt) : GameState :=
  let token := getTokenAt s.tokens v.x v.y
  if s.millRemovalState = .removing then
    match s.selectedVertex with
    | none =>
      let opponentColor := if s.currentPlayer = .red then Color.blue else Color.red
      match token with
      | some t =>
        if t.color = opponentColor then
          { s with
            selectedVertex := some v
            gameMessage := "Selected opponent " ++ colorName t.color ++
              " token. Click an empty vertex to move it there. " ++
              toString s.remainingOpponentMoves ++ " moves remaining." }
        else s
      | none => s
    | some sel =>
      match token with
      | some t =>
        let opponentColor := if s.currentPlayer = .red then Color.blue else Color.red
        if t.color = opponentColor then
          { s with
            selectedVertex := some v
            gameMessage := "Selected opponent " ++ colorName t.color ++
              " token. Click an empty vertex to move it there. " ++
              toString s.remainingOpponentMoves ++ " moves remaining." }
        else s
      | none =>
        match moveSelectedToken s.tokens sel v.x v.y with
        | none => s
        | some (tokens', moved) =>
          let s1 := { s with
            tokens := tokens'
            movedOpponentTokens := s.movedOpponentTokens ++ [moved]
            remainingOpponentMoves := s.remainingOpponentMoves - 1
            selectedVertex := none }
          let s2 := checkForWin b s1
          if s2.remainingOpponentMoves > 0 ∧ s2.gameWinner = none then
            { s2 with
              gameMessage :=
                "Opponent token moved. Select another opponent token to move. " ++
                  toString s2.remainingOpponentMoves ++ " moves remaining." }
          else if s2.gameWinner = none then
            let s3 := { s2 with
              millRemovalState := .idle
              highlightedMillTokens := []
              millShapes := []
              movedOpponentTokens := [] }
            let s4 := checkForWin b s3
            if s4.gameWinner = none then switchPlayer s4 else s4
          else s2
  else
    match s.selectedVertex with
    | none =>
      match token with
      | some t =>
        if t.color = s.currentPlayer then
          { s with
            selectedVertex := some v
            gameMessage := "Selected " ++ colorName s.currentPlayer ++
              " token. Click an adjacent empty vertex to move." }
        else s
      | none => s
    | some sel =>
      match token with
      | some t =>
        if t.color = s.currentPlayer then
          { s with
            selectedVertex := some v
            gameMessage := "Selected " ++ colorName s.currentPlayer ++
              " token. Click an adjacent empty vertex to move." }
        else s
      | none =>
        if isAdjacent sel v then
          match moveSelectedToken s.tokens sel v.x v.y with
          | none => s
          | some (tokens', _) =>
            let s1 := { s with tokens := tokens' }
            let r := checkForMills b s1 v.x v.y
            let s2 := checkForWin b r.2
            let s3 := { s2 with selectedVertex := none }
            if r.1 = false ∧ s3.gameWinner = none then switchPlayer s3 else s3
        else { s with gameMessage := "Cannot move there - vertices must be adjacent." }

/-- findClosestVertex (gameBoard.js:1187) on squared distances: the strictly
closest vertex within the 10-unit tolerance, earlier vertices winning ties. -/
def findClosestVertex (verts : List Pt) (x y : ℚ) : Option Pt :=
  (verts.foldl (fun acc v =>
    let d2 := (x - v.x) ^ 2 + (y - v.y) ^ 2
    if d2 < acc.2 then (some v, d2) else acc)
    ((none : Option Pt), (100 : ℚ))).1

/-- handleClick (gameBoard.js:1159) for a click at (x, y) over the board area.
When the game is won, board clicks are ignored (the New Game button lives in
the UI panel and is modelled as the separate reset transition). -/
def handleClickAt (b : Board) (s : GameState) (x y : ℚ) : GameState :=
  if s.gameWinner ≠ none then s
  else
    match findClosestVertex b.vertices x y with
    | none => s
    | some v =>
      match s.gameState with
      | .placement => handlePlacement b s v
      | .movement => handleMovement b s v

/-- The reachable game states of one session: the initial state, any sequence
of canvas clicks, and the reset command (resetGame, gameBoard.js:171, which
restores every field to its initial value). -/
inductive Reachable (b : Board) : GameState → Prop where
  | init : Reachable b initialState
  | click {s : GameState} (x y : ℚ) : Reachable b s → Reachable b (handleClickAt b s x y)
  | reset {s : GameState} : Reachable b s → Reachable b initialState

/-!
## Helper lemmas about the transition functions
-/

theorem switchPlayer_fields (s : GameState) :
    (switchPlayer s).gameState = s.gameState ∧
    (switchPlayer s).redTokensPlaced = s.redTokensPlaced ∧
    (switchPlayer s).blueTokensPlaced = s.blueTokensPlaced ∧
    (switchPlayer s).tokens = s.tokens ∧
    (switchPlayer s).gameWinner = s.gameWinner ∧
    (switchPlayer s).selectedVertex = s.selectedVertex ∧
    (switchPlayer s).millRemovalState = s.millRemovalState ∧
    (switchPlayer s).previousMills = s.previousMills ∧
    (switchPlayer s).remainingOpponentMoves = s.remainingOpponentMoves :=
  ⟨rfl, rfl, rfl, rfl, rfl, rfl, rfl, rfl, rfl⟩

theorem checkForWin_fields (b : Board) (s : GameState) :
    (checkForWin b s).gameState = s.gameState ∧
    (checkForWin b s).currentPlayer = s.currentPlayer ∧
    (checkForWin b s).redTokensPlaced = s.redTokensPlaced ∧
    (checkForWin b s).blueTokensPlaced = s.blueTokensPlaced ∧
    (checkForWin b s).tokens = s.tokens ∧
    (checkForWin b s).selectedVertex = s.selectedVertex ∧
    (checkForWin b s).millRemovalState = s.millRemovalState ∧
    (checkForWin b s).previousMills = s.previousMills ∧
    (checkForWin b s).remainingOpponentMoves = s.remainingOpponentMoves ∧
    (checkForWin b s).movedOpponentTokens = s.movedOpponentTokens := by
  unfold checkForWin
  split
  · exact ⟨rfl, rfl, rfl, rfl, rfl, rfl, rfl, rfl, rfl, rfl⟩
  · split
    · exact ⟨rfl, rfl, rfl, rfl, rfl, rfl, rfl, rfl, rfl, rfl⟩
    · exact ⟨rfl, rfl, rfl, rfl, rfl, rfl, rfl, rfl, rfl, rfl⟩

/-- The newly formed triangle mills counted by a mill evaluation (the filter
applied by checkForMills). -/
def newTriangleMillsOf (b : Board) (s : GameState) (player : Color) (x y : ℚ) :
    List (List Pt) :=
  (findTriangleMills b.vertices s.tokens player x y).filter
    (fun m => !wasMillPreviouslyFormed s.previousMills m .triangle)

/-- The newly formed square mills counted by a mill evaluation. -/
def newSquareMillsOf (b : Board) (s : GameState) (player : Color) (x y : ℚ) :
    List (List Pt) :=
  (findSquareMills b.vertices s.tokens player x y).filter
    (fun m => !wasMillPreviouslyFormed s.previousMills m .square)

theorem checkForMills_preserves (b : Board) (s : GameState) (x y : ℚ) :
    (checkForMills b s x y).2.tokens = s.tokens ∧
    (checkForMills b s x y).2.gameState = s.gameState ∧
    (checkForMills b s x y).2.currentPlayer = s.currentPlayer ∧
    (checkForMills b s x y).2.redTokensPlaced = s.redTokensPlaced ∧
    (checkForMills b s x y).2.blueTokensPlaced = s.blueTokensPlaced ∧
    (checkForMills b s x y).2.gameWinner = s.gameWinner ∧
    (checkForMills b s x y).2.selectedVertex = s.selectedVertex := by
  unfold checkForMills
  cases h : getTokenAt s.tokens x y with
  | none => exact ⟨rfl, rfl, rfl, rfl, rfl, rfl, rfl⟩
  | some tok =>
    simp only
    split
    · exact ⟨rfl, rfl, rfl, rfl, rfl, rfl, rfl⟩
    · exact ⟨rfl, rfl, rfl, rfl, rfl, rfl, rfl⟩

/-!
## C1: capture allowance
-/

/-- C1: when a mill evaluation finds t new triangle mills and q new square
mills, the granted allowance is exactly min(t*1 + q*2, 2) — hence always in
{0, 1, 2} no matter how many mills form simultaneously — and the mill-removal
sub-phase is entered exactly when t + q > 0; with zero new mills the
evaluation reports false and leaves the removal state, the allowance counter
and the rest of the game state unchanged. -/
theorem checkForMills_capture_allowance (b : Board) (s : GameState) (x y : ℚ)
    (tok : Token) (htok : getTokenAt s.tokens x y = some tok) :
    (0 < (newTriangleMillsOf b s tok.color x y).length +
        (newSquareMillsOf b s tok.color x y).length →
      (checkForMills b s x y).1 = true ∧
      (checkForMills b s x y).2.remainingOpponentMoves =
        min ((newTriangleMillsOf b s tok.color x y).length * 1 +
          (newSquareMillsOf b s tok.color x y).length * 2) 2 ∧
      (checkForMills b s x y).2.millRemovalState = .removing ∧
      (checkForMills b s x y).2.remainingOpponentMoves ≤ 2 ∧
      1 ≤ (checkForMills b s x y).2.remainingOpponentMoves) ∧
    ((newTriangleMillsOf b s tok.color x y).length = 0 ∧
        (newSquareMillsOf b s tok.color x y).length = 0 →
      (checkForMills b s x y).1 = false ∧
      (checkForMills b s x y).2.millRemovalState = s.millRemovalState ∧
      (checkForMills b s x y).2.remainingOpponentMoves = s.remainingOpponentMoves ∧
      (checkForMills b s x y).2.tokens = s.tokens ∧
      (checkForMills b s x y).2.gameState = s.gameState ∧
      (checkForMills b s x y).2.currentPlayer = s.currentPlayer ∧
      (checkForMills b s x y).2.gameWinner = s.gameWinner) := by
  unfold checkForMills
  rw [htok]
  simp only [newTriangleMillsOf, newSquareMillsOf]
  constructor
  · intro hpos
    rw [if_pos hpos]
    refine ⟨rfl, rfl, rfl, ?_, ?_⟩
    · exact Nat.min_le_right _ _
    · exact Nat.le_min.mpr ⟨by omega, by omega⟩
  · rintro ⟨ht, hq⟩
    rw [if_neg (by omega)]
    exact ⟨rfl, rfl, rfl, rfl, rfl, rfl, rfl⟩

/-- A concrete board instance for evaluations: a triangle of mutually
adjacent vertices near the origin plus a widely spaced row of 40 vertices
(none adjacent to anything), and no hexagon members, so no win can occur. -/
def demoBoard : Board :=
  { vertices := Pt.mk 0 0 :: Pt.mk 20 0 :: Pt.mk 20 20 ::
      (List.range 40).map (fun i => Pt.mk (100 + 50 * (i : ℚ)) 0)
    hexMembers := fun _ => [] }

/-- A movement-phase state with three red tokens forming a triangle, the one
at (20, 20) just moved there. -/
def c1State : GameState :=
  { initialState with
    gameState := .movement
    tokens := [⟨0, 0, .red⟩, ⟨20, 0, .red⟩, ⟨20, 20, .red⟩] }

theorem checkForMills_capture_allowance_witness :
    (newTriangleMillsOf demoBoard c1State .red 20 20).length = 1 ∧
    (newSquareMillsOf demoBoard c1State .red 20 20).length = 0 ∧
    (checkForMills demoBoard c1State 20 20).1 = true ∧
    (checkForMills demoBoard c1State 20 20).2.remainingOpponentMoves = min (1 * 1 + 0 * 2) 2 ∧
    (checkForMills demoBoard c1State 20 20).2.millRemovalState = .removing := by
  have ht : (newTriangleMillsOf demoBoard c1State .red 20 20).length = 1 := by
    with_unfolding_all rfl
  have hq : (newSquareMillsOf demoBoard c1State .red 20 20).length = 0 := by
    with_unfolding_all rfl
  have h := checkForMills_capture_allowance demoBoard c1State 20 20
    (Token.mk 20 20 .red) (by with_unfolding_all rfl)
  obtain ⟨hmain, -⟩ := h
  have hpos : 0 < (newTriangleMillsOf demoBoard c1State (Token.mk 20 20 .red).color 20 20).length +
      (newSquareMillsOf demoBoard c1State (Token.mk 20 20 .red).color 20 20).length := by
    show 0 < (newTriangleMillsOf demoBoard c1State .red 20 20).length +
      (newSquareMillsOf demoBoard c1State .red 20 20).length
    omega
  obtain ⟨h1, h2, h3, -, -⟩ := hmain hpos
  refine ⟨ht, hq, h1, ?_, h3⟩
  rw [show (Token.mk 20 20 Color.red).color = Color.red from rfl] at h2
  rw [h2, ht, hq]

/-!
## C2: a mill only counts the first time
-/

/-- The canonical ids a mill evaluation at (x, y) would count as new. -/
def newMillIdsAt (b : Board) (s : GameState) (x y : ℚ) : List MillId :=
  match getTokenAt s.tokens x y with
  | none => []
  | some tok =>
    (newTriangleMillsOf b s tok.color x y).map (fun m => createMillId m .triangle) ++
      (newSquareMillsOf b s tok.color x y).map (fun m => createMillId m .square)

/-- Folding a sequence of click events from a state (the session's future). -/
def clickRun (b : Board) (s : GameState) (ps : List (ℚ × ℚ)) : GameState :=
  ps.foldl (fun st p => handleClickAt b st p.1 p.2) s

theorem mem_addMillId_of_mem {prev : List MillId} {i : MillId} (m : MillId)
    (h : i ∈ prev) : i ∈ addMillId prev m := by
  unfold addMillId
  split
  · exact h
  · exact List.mem_append_left _ h

theorem self_mem_addMillId (prev : List MillId) (m : MillId) : m ∈ addMillId prev m := by
  unfold addMillId
  split
  · assumption
  · exact List.mem_append_right _ (List.mem_singleton.mpr rfl)

theorem mem_foldl_addMillId {i : MillId} (f : List Pt → MillId) (ms : List (List Pt))
    (prev : List MillId) (h : i ∈ prev) :
    i ∈ ms.foldl (fun acc m => addMillId acc (f m)) prev := by
  induction ms generalizing prev with
  | nil => exact h
  | cons m ms ih => exact ih _ (mem_addMillId_of_mem _ h)

theorem detected_mem_foldl_addMillId (f : List Pt → MillId) {ms : List (List Pt)}
    (prev : List MillId) {m : List Pt} (hm : m ∈ ms) :
    f m ∈ ms.foldl (fun acc m => addMillId acc (f m)) prev := by
  induction ms generalizing prev with
  | nil => cases hm
  | cons m0 ms ih =>
    rcases List.mem_cons.mp hm with rfl | h
    · exact mem_foldl_addMillId f ms _ (self_mem_addMillId prev (f m))
    · exact ih _ h

theorem updatePreviouslyFormedMills_spec (prev : List MillId)
    (tri sq : List (List Pt)) :
    (∀ i ∈ prev, i ∈ updatePreviouslyFormedMills prev tri sq) ∧
    (∀ m ∈ tri, createMillId m .triangle ∈ updatePreviouslyFormedMills prev tri sq) ∧
    (∀ m ∈ sq, createMillId m .square ∈ updatePreviouslyFormedMills prev tri sq) := by
  unfold updatePreviouslyFormedMills
  refine ⟨?_, ?_, ?_⟩
  · intro i hi
    exact mem_foldl_addMillId _ sq _ (mem_foldl_addMillId _ tri _ hi)
  · intro m hm
    exact mem_foldl_addMillId _ sq _ (detected_mem_foldl_addMillId _ _ hm)
  · intro m hm
    exact detected_mem_foldl_addMillId _ _ hm

theorem checkForMills_prev_mono (b : Board) (s : GameState) (x y : ℚ) :
    ∀ i ∈ s.previousMills, i ∈ (checkForMills b s x y).2.previousMills := by
  intro i hi
  unfold checkForMills
  cases h : getTokenAt s.tokens x y with
  | none => exact hi
  | some tok =>
    simp only
    split
    · exact (updatePreviouslyFormedMills_spec _ _ _).1 i hi
    · exact (updatePreviouslyFormedMills_spec _ _ _).1 i hi

theorem checkForWin_previousMills (b : Board) (s : GameState) :
    (checkForWin b s).previousMills = s.previousMills :=
  (checkForWin_fields b s).2.2.2.2.2.2.2.1

theorem checkForWin_tokens (b : Board) (s : GameState) :
    (checkForWin b s).tokens = s.tokens :=
  (checkForWin_fields b s).2.2.2.2.1

theorem placeToken_previousMills (s : GameState) (v : Pt) :
    (placeToken s v).previousMills = s.previousMills := by
  unfold placeToken
  split <;> rfl

theorem switchPlayer_previousMills (s : GameState) :
    (switchPlayer s).previousMills = s.previousMills := rfl

theorem handlePlacement_previousMills (b : Board) (s : GameState) (v : Pt) :
    (handlePlacement b s v).previousMills = s.previousMills := by
  unfold handlePlacement
  split
  · rfl
  · dsimp only
    split
    · show (checkForWin b (placeToken s v)).previousMills = s.previousMills
      rw [checkForWin_previousMills, placeToken_previousMills]
    · split
      · rw [switchPlayer_previousMills, checkForWin_previousMills, placeToken_previousMills]
      · rw [checkForWin_previousMills, placeToken_previousMills]

theorem handleMovement_prev_mono (b : Board) (s : GameState) (v : Pt) :
    ∀ i ∈ s.previousMills, i ∈ (handleMovement b s v).previousMills := by
  intro i hi
  unfold handleMovement
  dsimp only
  repeat' split
  all_goals
    repeat
      first
        | exact hi
        | exact checkForMills_prev_mono b _ v.x v.y i hi
        | rw [switchPlayer_previousMills]
        | rw [checkForWin_previousMills]
        | dsimp only

theorem handleClickAt_prev_mono (b : Board) (s : GameState) (x y : ℚ) :
    ∀ i ∈ s.previousMills, i ∈ (handleClickAt b s x y).previousMills := by
  intro i hi
  unfold handleClickAt
  split
  · exact hi
  · split
    · exact hi
    · split
      · rw [handlePlacement_previousMills]
        exact hi
      · exact handleMovement_prev_mono b s _ i hi

theorem clickRun_prev_mono (b : Board) (s : GameState) (ps : List (ℚ × ℚ)) :
    ∀ i ∈ s.previousMills, i ∈ (clickRun b s ps).previousMills := by
  induction ps generalizing s with
  | nil => exact fun i hi => hi
  | cons p ps ih =>
    intro i hi
    exact ih _ i (handleClickAt_prev_mono b s p.1 p.2 i hi)

theorem not_counted_of_prev {b : Board} {s : GameState} {x y : ℚ} {i : MillId}
    (hi : i ∈ s.previousMills) : i ∉ newMillIdsAt b s x y := by
  intro hin
  unfold newMillIdsAt at hin
  cases h : getTokenAt s.tokens x y with
  | none => rw [h] at hin; cases hin
  | some tok =>
    rw [h] at hin
    rcases List.mem_append.mp hin with hmem | hmem <;>
    · rcases List.mem_map.mp hmem with ⟨m, hm, heq⟩
      rcases List.mem_filter.mp hm with ⟨-, hflt⟩
      rw [Bool.not_eq_true'] at hflt
      rw [wasMillPreviouslyFormed] at hflt
      exact absurd (heq ▸ hi) (of_decide_eq_false hflt)

/-- C2: after a mill evaluation every detected mill — newly formed or repeat —
has its canonical id in previousMills; clicks never remove an id from
previousMills within a session; an id already in previousMills is never
counted as new by the current evaluation; and therefore, whatever clicks
follow (including moving tokens away and back to re-form the mill), a
recorded id never contributes to a capture allowance again. -/
theorem mill_counted_at_most_once (b : Board) (s : GameState) (x y : ℚ) :
    (∀ tok, getTokenAt s.tokens x y = some tok →
      (∀ m ∈ findTriangleMills b.vertices s.tokens tok.color x y,
        createMillId m .triangle ∈ (checkForMills b s x y).2.previousMills) ∧
      (∀ m ∈ findSquareMills b.vertices s.tokens tok.color x y,
        createMillId m .square ∈ (checkForMills b s x y).2.previousMills)) ∧
    (∀ i ∈ s.previousMills, i ∈ (handleClickAt b s x y).previousMills) ∧
    (∀ i ∈ s.previousMills, i ∉ newMillIdsAt b s x y) ∧
    (∀ i ∈ s.previousMills, ∀ (ps : List (ℚ × ℚ)) (a c : ℚ),
      i ∉ newMillIdsAt b (clickRun b s ps) a c) := by
  refine ⟨?_, handleClickAt_prev_mono b s x y, fun i hi => not_counted_of_prev hi, ?_⟩
  · intro tok htok
    constructor
    · intro m hm
      unfold checkForMills
      rw [htok]
      simp only
      split
      · exact (updatePreviouslyFormedMills_spec _ _ _).2.1 m hm
      · exact (updatePreviouslyFormedMills_spec _ _ _).2.1 m hm
    · intro m hm
      unfold checkForMills
      rw [htok]
      simp only
      split
      · exact (updatePreviouslyFormedMills_spec _ _ _).2.2 m hm
      · exact (updatePreviouslyFormedMills_spec _ _ _).2.2 m hm
  · intro i hi ps a c
    exact not_counted_of_prev (clickRun_prev_mono b s ps i hi)

/-- The state after the first triangle-mill evaluation on the demo board. -/
def c2State : GameState := (checkForMills demoBoard c1State 20 20).2

/-- The canonical id of the demo triangle mill. -/
def c2MillId : MillId := createMillId [Pt.mk 0 0, Pt.mk 20 0, Pt.mk 20 20] .triangle

theorem mill_counted_at_most_once_witness :
    c2MillId ∈ c2State.previousMills ∧
    c2MillId ∉ newMillIdsAt demoBoard c2State 20 20 ∧
    c2MillId ∉ newMillIdsAt demoBoard (clickRun demoBoard c2State [(300, 0)]) 20 20 := by
  have hfind : findTriangleMills demoBoard.vertices c1State.tokens
      (Token.mk 20 20 Color.red).color 20 20 = [[Pt.mk 0 0, Pt.mk 20 0, Pt.mk 20 20]] := by
    with_unfolding_all rfl
  have hmem : c2MillId ∈ c2State.previousMills := by
    have h := ((mill_counted_at_most_once demoBoard c1State 20 20).1
      (Token.mk 20 20 Color.red) (by with_unfolding_all rfl)).1
    rw [hfind] at h
    exact h _ (List.mem_singleton.mpr rfl)
  refine ⟨hmem, ?_, ?_⟩
  · exact (mill_counted_at_most_once demoBoard c2State 20 20).2.2.1 c2MillId hmem
  · exact (mill_counted_at_most_once demoBoard c2State 20 20).2.2.2 c2MillId hmem
      [(300, 0)] 20 20

/-!
## C7: placement-to-movement transition on the 30th placement
-/

theorem checkForWin_gameState (b : Board) (s : GameState) :
    (checkForWin b s).gameState = s.gameState := (checkForWin_fields b s).1

theorem checkForWin_currentPlayer (b : Board) (s : GameState) :
    (checkForWin b s).currentPlayer = s.currentPlayer := (checkForWin_fields b s).2.1

theorem checkForWin_redTokensPlaced (b : Board) (s : GameState) :
    (checkForWin b s).redTokensPlaced = s.redTokensPlaced := (checkForWin_fields b s).2.2.1

theorem checkForWin_blueTokensPlaced (b : Board) (s : GameState) :
    (checkForWin b s).blueTokensPlaced = s.blueTokensPlaced := (checkForWin_fields b s).2.2.2.1

theorem placeToken_fields (s : GameState) (v : Pt) :
    (placeToken s v).gameState = s.gameState ∧
    (placeToken s v).currentPlayer = s.currentPlayer ∧
    (placeToken s v).gameWinner = s.gameWinner ∧
    (placeToken s v).tokens = s.tokens ++ [Token.mk v.x v.y s.currentPlayer] ∧
    (placeToken s v).redTokensPlaced =
      (if s.currentPlayer = .red then s.redTokensPlaced + 1 else s.redTokensPlaced) ∧
    (placeToken s v).blueTokensPlaced =
      (if s.currentPlayer = .red then s.blueTokensPlaced else s.blueTokensPlaced + 1) := by
  unfold placeToken
  split
  next h => exact ⟨rfl, rfl, rfl, rfl, rfl, rfl⟩
  next h => exact ⟨rfl, rfl, rfl, rfl, rfl, rfl⟩

/-- Folding a list of placement clicks through handlePlacement. -/
def placementRun (b : Board) (s : GameState) (ps : List Pt) : GameState :=
  ps.foldl (fun st v => handlePlacement b st v) s

/-- An accepted, win-free placement: the clicked vertex is unoccupied and the
win detection run by this placement reports no winner. -/
def placementOk (b : Board) (s : GameState) (v : Pt) : Prop :=
  getTokenAt s.tokens v.x v.y = none ∧
    (checkForWin b (placeToken s v)).gameWinner = none

instance (b : Board) (s : GameState) (v : Pt) : Decidable (placementOk b s v) := by
  unfold placementOk; infer_instance

theorem placementRun_take_succ (b : Board) (ps : List Pt) (k : ℕ) (hk : k < ps.length) :
    placementRun b initialState (ps.take (k + 1)) =
      handlePlacement b (placementRun b initialState (ps.take k)) (ps.get ⟨k, hk⟩) := by
  unfold placementRun
  rw [List.take_succ, List.getElem?_eq_getElem hk, Option.toList_some, List.foldl_append,
    List.foldl_cons, List.foldl_nil]
  rfl

theorem placementRun_state (b : Board) (ps : List Pt)
    (hok : ∀ k (hk : k < ps.length),
      placementOk b (placementRun b initialState (ps.take k)) (ps.get ⟨k, hk⟩))
    (hlen : ps.length ≤ 30) :
    ∀ k, k ≤ ps.length →
      (placementRun b initialState (ps.take k)).redTokensPlaced = (k + 1) / 2 ∧
      (placementRun b initialState (ps.take k)).blueTokensPlaced = k / 2 ∧
      (placementRun b initialState (ps.take k)).gameWinner = none ∧
      (k < 30 → (placementRun b initialState (ps.take k)).gameState = .placement ∧
        (placementRun b initialState (ps.take k)).currentPlayer =
          (if k % 2 = 0 then Color.red else Color.blue)) ∧
      (k = 30 → (placementRun b initialState (ps.take k)).gameState = .movement ∧
        (placementRun b initialState (ps.take k)).currentPlayer = .red) := by
  intro k
  induction k with
  | zero =>
    intro _
    refine ⟨rfl, rfl, rfl, fun _ => ⟨rfl, rfl⟩, fun h => absurd h (by omega)⟩
  | succ k ih =>
    intro hk1
    have hklt : k < ps.length := by omega
    have hk30 : k < 30 := by omega
    obtain ⟨ihr, ihb, ihw, ihp, -⟩ := ih (by omega)
    obtain ⟨hphase, hplayer⟩ := ihp hk30
    obtain ⟨hempty, hnowin⟩ := hok k hklt
    set sk := placementRun b initialState (ps.take k) with hsk
    have hstep := placementRun_take_succ b ps k hklt
    rw [hstep]
    unfold handlePlacement
    rw [hempty]
    simp only [Option.isSome_none, Bool.false_eq_true, if_false]
    obtain ⟨hpg, hpc, hpw, hpt, hpr, hpb⟩ := placeToken_fields sk (ps.get ⟨k, hklt⟩)
    have hs1r : (checkForWin b (placeToken sk (ps.get ⟨k, hklt⟩))).redTokensPlaced =
        (if sk.currentPlayer = .red then sk.redTokensPlaced + 1 else sk.redTokensPlaced) := by
      rw [checkForWin_redTokensPlaced, hpr]
    have hs1b : (checkForWin b (placeToken sk (ps.get ⟨k, hklt⟩))).blueTokensPlaced =
        (if sk.currentPlayer = .red then sk.blueTokensPlaced else sk.blueTokensPlaced + 1) := by
      rw [checkForWin_blueTokensPlaced, hpb]
    have hs1g : (checkForWin b (placeToken sk (ps.get ⟨k, hklt⟩))).gameState = sk.gameState := by
      rw [checkForWin_gameState, hpg]
    have hs1c : (checkForWin b (placeToken sk (ps.get ⟨k, hklt⟩))).currentPlayer =
        sk.currentPlayer := by
      rw [checkForWin_currentPlayer, hpc]
    by_cases hpar : k % 2 = 0
    · -- red is to place; quota cannot complete at an odd total
      have hcr : sk.currentPlayer = .red := by rw [hplayer, if_pos hpar]
      have hred : (checkForWin b (placeToken sk (ps.get ⟨k, hklt⟩))).redTokensPlaced =
          (k + 1) / 2 + 1 := by rw [hs1r, if_pos hcr, ihr]
      have hblue : (checkForWin b (placeToken sk (ps.get ⟨k, hklt⟩))).blueTokensPlaced =
          k / 2 := by rw [hs1b, if_pos hcr, ihb]
      rw [if_neg (by rw [hred, hblue]; unfold maxTokensPerPlayer; omega)]
      rw [if_pos hnowin]
      have hsw := switchPlayer_fields (checkForWin b (placeToken sk (ps.get ⟨k, hklt⟩)))
      refine ⟨?_, ?_, ?_, ?_, ?_⟩
      · rw [hsw.2.1, hred]; omega
      · rw [hsw.2.2.1, hblue]; omega
      · rw [hsw.2.2.2.2.1, hnowin]
      · intro _
        constructor
        · rw [hsw.1, hs1g, hphase]
        · show (switchPlayer _).currentPlayer = _
          unfold switchPlayer
          dsimp only
          simp only [hs1c, hcr]
          rw [if_neg (by omega : ¬(k + 1) % 2 = 0)]
          simp
      · intro h30
        exact absurd h30 (by omega)
    · -- blue is to place
      have hcr : sk.currentPlayer = .blue := by rw [hplayer, if_neg hpar]
      have hcr' : ¬sk.currentPlayer = .red := by rw [hcr]; intro h; cases h
      have hred : (checkForWin b (placeToken sk (ps.get ⟨k, hklt⟩))).redTokensPlaced =
          (k + 1) / 2 := by rw [hs1r, if_neg hcr', ihr]
      have hblue : (checkForWin b (placeToken sk (ps.get ⟨k, hklt⟩))).blueTokensPlaced =
          k / 2 + 1 := by rw [hs1b, if_neg hcr', ihb]
      by_cases h30 : k + 1 = 30
      · -- the 30th placement: both quotas complete, enter movement with red
        rw [if_pos (by rw [hred, hblue]; unfold maxTokensPerPlayer; omega)]
        refine ⟨?_, ?_, ?_, ?_, ?_⟩
        · show (checkForWin b (placeToken sk (ps.get ⟨k, hklt⟩))).redTokensPlaced = (k + 1 + 1) / 2
          rw [hred]; omega
        · show (checkForWin b (placeToken sk (ps.get ⟨k, hklt⟩))).blueTokensPlaced = (k + 1) / 2
          rw [hblue]; omega
        · show (checkForWin b (placeToken sk (ps.get ⟨k, hklt⟩))).gameWinner = none
          exact hnowin
        · intro h; exact absurd h (by omega)
        · intro _; exact ⟨rfl, rfl⟩
      · -- an intermediate blue placement: quota not complete, switch back to red
        rw [if_neg (by rw [hred, hblue]; unfold maxTokensPerPlayer; omega)]
        rw [if_pos hnowin]
        have hsw := switchPlayer_fields (checkForWin b (placeToken sk (ps.get ⟨k, hklt⟩)))
        refine ⟨?_, ?_, ?_, ?_, ?_⟩
        · rw [hsw.2.1, hred]; omega
        · rw [hsw.2.2.1, hblue]; omega
        · rw [hsw.2.2.2.2.1, hnowin]
        · intro _
          constructor
          · rw [hsw.1, hs1g, hphase]
          · show (switchPlayer _).currentPlayer = _
            unfold switchPlayer
            dsimp only
            simp only [hs1c, hcr]
            rw [if_pos (by omega : (k + 1) % 2 = 0)]
            simp
        · intro h; exact absurd h h30

/-- C7: with 15 tokens per side placed alternately, no mills (placement never
evaluates mills) and no win, the phase changes from Placement to Movement
exactly on the 30th placement, with currentPlayer = red at the transition;
every earlier state is still in placement with the active player alternating
(red on even placement counts). -/
theorem placement_to_movement_on_30th (b : Board) (ps : List Pt)
    (hlen : ps.length = 30)
    (hok : ∀ k (hk : k < ps.length),
      placementOk b (placementRun b initialState (ps.take k)) (ps.get ⟨k, hk⟩)) :
    (placementRun b initialState ps).gameState = .movement ∧
    (placementRun b initialState ps).currentPlayer = .red ∧
    (∀ k, k < 30 →
      (placementRun b initialState (ps.take k)).gameState = .placement ∧
      (placementRun b initialState (ps.take k)).currentPlayer =
        (if k % 2 = 0 then Color.red else Color.blue)) := by
  have hinv := placementRun_state b ps hok (by omega)
  have h30 := hinv 30 (by omega)
  have htake : ps.take 30 = ps := by
    rw [← hlen]
    exact List.take_length ps
  rw [htake] at h30
  refine ⟨(h30.2.2.2.2 rfl).1, (h30.2.2.2.2 rfl).2, ?_⟩
  intro k hk
  exact (hinv k (by omega)).2.2.2.1 hk

/-- The 30 placement clicks of the demonstration run: pairwise distant
vertices of the demo board. -/
def placementPoints : List Pt := (List.range 30).map (fun i => Pt.mk (100 + 50 * (i : ℚ)) 0)

theorem placement_to_movement_on_30th_witness :
    (placementRun demoBoard initialState placementPoints).gameState = .movement ∧
    (placementRun demoBoard initialState placementPoints).currentPlayer = .red := by
  have h := placement_to_movement_on_30th demoBoard placementPoints
    (by with_unfolding_all rfl)
    (of_decide_eq_true (by with_unfolding_all rfl))
  exact ⟨h.1, h.2.1⟩

/-!
## C8: rejected inputs
-/

/-- C8 (amended): every rejected input is a local no-op that never aborts —
an occupied placement target, a wrong-turn token selection and an occupied
movement destination leave the entire state unchanged (including the advisory
message), while a non-adjacent empty destination only updates the advisory
message, preserving tokens, phase, turn and in particular the selection. -/
theorem rejected_inputs_are_noops (b : Board) (s : GameState) (v : Pt) :
    ((getTokenAt s.tokens v.x v.y).isSome = true → handlePlacement b s v = s) ∧
    (∀ t, s.millRemovalState = .idle → s.selectedVertex = none →
      getTokenAt s.tokens v.x v.y = some t → ¬t.color = s.currentPlayer →
      handleMovement b s v = s) ∧
    (∀ t sel, s.millRemovalState = .idle → s.selectedVertex = some sel →
      getTokenAt s.tokens v.x v.y = some t → ¬t.color = s.currentPlayer →
      handleMovement b s v = s) ∧
    (∀ sel, s.millRemovalState = .idle → s.selectedVertex = some sel →
      getTokenAt s.tokens v.x v.y = none → isAdjacent sel v = false →
      handleMovement b s v =
        { s with gameMessage := "Cannot move there - vertices must be adjacent." }) := by
  have hremoving : ∀ h : s.millRemovalState = MillPhase.idle,
      ¬s.millRemovalState = MillPhase.removing := by
    intro h hc
    rw [h] at hc
    cases hc
  refine ⟨?_, ?_, ?_, ?_⟩
  · intro hocc
    unfold handlePlacement
    rw [if_pos hocc]
  · intro t hmr hsel htok hcol
    unfold handleMovement
    rw [if_neg (hremoving hmr), hsel]
    dsimp only
    rw [htok]
    dsimp only
    rw [if_neg hcol]
  · intro t sel hmr hsel htok hcol
    unfold handleMovement
    rw [if_neg (hremoving hmr), hsel]
    dsimp only
    rw [htok]
    dsimp only
    rw [if_neg hcol]
  · intro sel hmr hsel htok hadj
    unfold handleMovement
    rw [if_neg (hremoving hmr), hsel]
    dsimp only
    rw [htok]
    dsimp only
    rw [if_neg (by rw [hadj]; intro h; cases h)]

/-- A placement-phase state with one red token already at (100, 0). -/
def c8State : GameState :=
  { initialState with tokens := [Token.mk 100 0 .red] }

theorem rejected_inputs_are_noops_witness :
    handlePlacement demoBoard c8State (Pt.mk 100 0) = c8State ∧
    handleMovement demoBoard
      { c8State with gameState := .movement, currentPlayer := .blue } (Pt.mk 100 0) =
      { c8State with gameState := .movement, currentPlayer := .blue } ∧
    handleMovement demoBoard
      { c1State with selectedVertex := some (Pt.mk 0 0) } (Pt.mk 300 0) =
      { { c1State with selectedVertex := some (Pt.mk 0 0) } with
        gameMessage := "Cannot move there - vertices must be adjacent." } := by
  refine ⟨?_, ?_, ?_⟩
  · exact (rejected_inputs_are_noops demoBoard c8State (Pt.mk 100 0)).1
      (by with_unfolding_all rfl)
  · exact (rejected_inputs_are_noops demoBoard _ (Pt.mk 100 0)).2.1
      (Token.mk 100 0 .red) rfl rfl (by with_unfolding_all rfl)
      (by intro h; cases h)
  · exact (rejected_inputs_are_noops demoBoard _ (Pt.mk 300 0)).2.2.2
      (Pt.mk 0 0) rfl rfl (by with_unfolding_all rfl) (by with_unfolding_all rfl)

/-- C8 as literally stated is false: the source rejects an occupied placement
target (and a wrong-turn selection) by doing nothing at all — the advisory
message is not updated.  On the concrete occupied click below the whole state,
message included, is unchanged. -/
theorem rejected_input_no_message_update :
    handlePlacement demoBoard c8State (Pt.mk 100 0) = c8State ∧
    (handlePlacement demoBoard c8State (Pt.mk 100 0)).gameMessage = c8State.gameMessage ∧
    c8State.gameMessage = initialState.gameMessage := by
  refine ⟨?_, ?_, rfl⟩
  · with_unfolding_all rfl
  · with_unfolding_all rfl

/-!
## C3: win detection
-/

/-- The winner the hexagon scan reports for an occupancy, ignoring any
previously recorded winner: the red-eligible hexagons 1..5 are checked first,
then the blue-eligible hexagons 3..7. -/
def winnerOf (b : Board) (tokens : List Token) : Option Color :=
  match redWinHexagons.find? (fun n => isHexagonSurrounded b tokens n .red) with
  | some _ => some .red
  | none =>
    match blueWinHexagons.find? (fun n => isHexagonSurrounded b tokens n .blue) with
    | some _ => some .blue
    | none => none

theorem switchPlayer_gameWinner (s : GameState) :
    (switchPlayer s).gameWinner = s.gameWinner := rfl

theorem checkForWin_gameWinner (b : Board) (s : GameState) :
    (checkForWin b s).gameWinner = (winnerOf b s.tokens).or s.gameWinner := by
  unfold checkForWin winnerOf
  cases hr : redWinHexagons.find? (fun n => isHexagonSurrounded b s.tokens n .red) with
  | some n => rfl
  | none =>
    cases hb : blueWinHexagons.find? (fun n => isHexagonSurrounded b s.tokens n .blue) with
    | some n => rfl
    | none => rfl

theorem hexOccupied_iff (tokens : List Token) (v : Pt) (c : Color) :
    (match getTokenAt tokens v.x v.y with
      | some t => decide (t.color = c)
      | none => false) = true ↔
    ∃ t, getTokenAt tokens v.x v.y = some t ∧ t.color = c := by
  cases h : getTokenAt tokens v.x v.y with
  | none => simp
  | some t => simp

theorem isHexagonSurrounded_iff (b : Board) (tokens : List Token) (n : ℕ) (c : Color)
    (h1 : 1 ≤ n) (h7 : n ≤ 7) :
    (isHexagonSurrounded b tokens n c = true ↔
      (b.hexMembers n).length ≥ 6 ∧ ∀ v ∈ b.hexMembers n,
        ∃ t, getTokenAt tokens v.x v.y = some t ∧ t.color = c) := by
  unfold isHexagonSurrounded
  rw [if_pos ⟨h1, h7⟩, decide_eq_true_eq]
  constructor
  · rintro ⟨hlen6, hcount⟩
    refine ⟨hlen6, fun v hv => ?_⟩
    have hfe := (List.filter_sublist (l := b.hexMembers n)).eq_of_length hcount
    exact (hexOccupied_iff tokens v c).mp (List.filter_eq_self.mp hfe v hv)
  · rintro ⟨hlen6, hall⟩
    refine ⟨hlen6, ?_⟩
    rw [List.filter_eq_self.mpr (fun a ha => (hexOccupied_iff tokens a c).mpr (hall a ha))]

theorem winnerOf_red (b : Board) (tokens : List Token)
    (h : redWinHexagons.any (fun n => isHexagonSurrounded b tokens n .red) = true) :
    winnerOf b tokens = some .red := by
  unfold winnerOf
  cases hr : redWinHexagons.find? (fun n => isHexagonSurrounded b tokens n .red) with
  | some n => rfl
  | none =>
    rw [List.find?_eq_none] at hr
    rcases List.any_eq_true.mp h with ⟨n, hn, hsn⟩
    exact absurd hsn (by simpa using hr n hn)

theorem winnerOf_blue (b : Board) (tokens : List Token)
    (hr : redWinHexagons.any (fun n => isHexagonSurrounded b tokens n .red) = false)
    (h : blueWinHexagons.any (fun n => isHexagonSurrounded b tokens n .blue) = true) :
    winnerOf b tokens = some .blue := by
  unfold winnerOf
  cases hfr : redWinHexagons.find? (fun n => isHexagonSurrounded b tokens n .red) with
  | some n =>
    have := List.find?_some hfr
    rw [List.any_eq_false] at hr
    exact absurd this (by simpa using hr n (List.mem_of_find?_eq_some hfr))
  | none =>
    cases hfb : blueWinHexagons.find? (fun n => isHexagonSurrounded b tokens n .blue) with
    | some n => rfl
    | none =>
      rw [List.find?_eq_none] at hfb
      rcases List.any_eq_true.mp h with ⟨n, hn, hsn⟩
      exact absurd hsn (by simpa using hfb n hn)

theorem handlePlacement_win_semantics (b : Board) (s : GameState) (v : Pt)
    (hempty : getTokenAt s.tokens v.x v.y = none)
    (hwin : s.gameWinner = none)
    (hphase : s.gameState = .placement) :
    (handlePlacement b s v).gameWinner = winnerOf b (placeToken s v).tokens ∧
    ((handlePlacement b s v).gameState = .movement ↔
      ((placeToken s v).redTokensPlaced = maxTokensPerPlayer ∧
       (placeToken s v).blueTokensPlaced = maxTokensPerPlayer)) ∧
    (¬((placeToken s v).redTokensPlaced = maxTokensPerPlayer ∧
        (placeToken s v).blueTokensPlaced = maxTokensPerPlayer) →
      winnerOf b (placeToken s v).tokens ≠ none →
      (handlePlacement b s v).currentPlayer = s.currentPlayer) ∧
    ((placeToken s v).redTokensPlaced = maxTokensPerPlayer ∧
        (placeToken s v).blueTokensPlaced = maxTokensPerPlayer →
      (handlePlacement b s v).currentPlayer = Color.red) := by
  have hptw : (placeToken s v).gameWinner = none := by
    rw [(placeToken_fields s v).2.2.1, hwin]
  have hs1w : (checkForWin b (placeToken s v)).gameWinner =
      winnerOf b (placeToken s v).tokens := by
    rw [checkForWin_gameWinner, hptw, Option.or_none]
  have hs1g : (checkForWin b (placeToken s v)).gameState = Phase.placement := by
    rw [checkForWin_gameState, (placeToken_fields s v).1, hphase]
  have hs1c : (checkForWin b (placeToken s v)).currentPlayer = s.currentPlayer := by
    rw [checkForWin_currentPlayer, (placeToken_fields s v).2.1]
  have hs1r := checkForWin_redTokensPlaced b (placeToken s v)
  have hs1b := checkForWin_blueTokensPlaced b (placeToken s v)
  unfold handlePlacement
  rw [hempty]
  simp only [Option.isSome_none, Bool.false_eq_true, if_false]
  by_cases hquota : (checkForWin b (placeToken s v)).redTokensPlaced = maxTokensPerPlayer ∧
      (checkForWin b (placeToken s v)).blueTokensPlaced = maxTokensPerPlayer
  · rw [if_pos hquota]
    refine ⟨hs1w, ?_, ?_, fun _ => rfl⟩
    · show Phase.movement = Phase.movement ↔ _
      rw [← hs1r, ← hs1b]
      exact iff_of_true rfl hquota
    · intro hn _
      rw [← hs1r, ← hs1b] at hn
      exact absurd hquota hn
  · rw [if_neg hquota]
    rw [← hs1r, ← hs1b]
    by_cases hw1 : (checkForWin b (placeToken s v)).gameWinner = none
    · rw [if_pos hw1]
      refine ⟨?_, ?_, ?_, fun hq => absurd hq hquota⟩
      · rw [switchPlayer_gameWinner, hs1w]
      · rw [switchPlayer_fields _ |>.1, hs1g]
        exact iff_of_false (by intro h; cases h) hquota
      · intro _ hne
        rw [← hs1w] at hne
        exact absurd hw1 hne
    · rw [if_neg hw1]
      exact ⟨hs1w, by rw [hs1g]; exact iff_of_false (by intro h; cases h) hquota,
        fun _ _ => hs1c, fun hq => absurd hq hquota⟩

theorem handleMovement_win_no_switch (b : Board) (s : GameState) (v : Pt) (c : Color) :
    (handleMovement b s v).gameWinner = some c →
    (handleMovement b s v).currentPlayer = s.currentPlayer := by
  unfold handleMovement
  dsimp only
  repeat' split
  all_goals intro hw
  all_goals
    repeat
      first
        | rfl
        | rw [checkForWin_currentPlayer]
        | rw [(checkForMills_preserves b _ _ _).2.2.1]
        | dsimp only
        | simp_all [switchPlayer_gameWinner]

theorem relocation_runs_win_detection (b : Board) (s : GameState) (v : Pt)
    (sel : Pt) (tokens' : List Token) (moved : Token)
    (hmr : s.millRemovalState = .removing)
    (hsel : s.selectedVertex = some sel)
    (hempty : getTokenAt s.tokens v.x v.y = none)
    (hmove : moveSelectedToken s.tokens sel v.x v.y = some (tokens', moved))
    (hwin : s.gameWinner = none) :
    (handleMovement b s v).gameWinner = winnerOf b tokens' := by
  unfold handleMovement
  rw [if_pos hmr, hsel]
  dsimp only
  rw [hempty]
  dsimp only
  rw [hmove]
  dsimp only
  set s1 : GameState := { s with
    tokens := tokens'
    movedOpponentTokens := s.movedOpponentTokens ++ [moved]
    remainingOpponentMoves := s.remainingOpponentMoves - 1
    selectedVertex := none } with hs1
  have hs1t : s1.tokens = tokens' := rfl
  have hs1w : s1.gameWinner = none := hwin
  have hs2w : (checkForWin b s1).gameWinner = winnerOf b tokens' := by
    rw [checkForWin_gameWinner, hs1t, hs1w, Option.or_none]
  split
  · exact hs2w
  · by_cases hw2 : (checkForWin b s1).gameWinner = none
    · rw [if_pos hw2]
      set s3 : GameState := { checkForWin b s1 with
        millRemovalState := MillPhase.idle
        highlightedMillTokens := []
        millShapes := []
        movedOpponentTokens := [] } with hs3
      have hs3t : s3.tokens = tokens' := by
        show (checkForWin b s1).tokens = tokens'
        rw [checkForWin_tokens]
      have hs3w : s3.gameWinner = none := hw2
      have hs4w : (checkForWin b s3).gameWinner = winnerOf b tokens' := by
        rw [checkForWin_gameWinner, hs3t, hs3w, Option.or_none]
      have hnone : winnerOf b tokens' = none := by rw [← hs2w]; exact hw2
      split
      · rw [switchPlayer_gameWinner, hs4w]
      · exact hs4w
    · rw [if_neg hw2]
      exact hs2w

theorem movement_runs_win_detection (b : Board) (s : GameState) (v : Pt)
    (sel : Pt) (tokens' : List Token) (moved : Token)
    (hmr : s.millRemovalState = .idle)
    (hsel : s.selectedVertex = some sel)
    (hempty : getTokenAt s.tokens v.x v.y = none)
    (hadj : isAdjacent sel v = true)
    (hmove : moveSelectedToken s.tokens sel v.x v.y = some (tokens', moved))
    (hwin : s.gameWinner = none) :
    (handleMovement b s v).gameWinner = winnerOf b tokens' := by
  unfold handleMovement
  rw [if_neg (show ¬s.millRemovalState = MillPhase.removing by
      rw [hmr]; exact fun h => by cases h), hsel]
  dsimp only
  rw [hempty]
  dsimp only
  rw [if_pos hadj, hmove]
  dsimp only
  set s1 : GameState := { s with
    tokens := tokens'
    selectedVertex := some sel } with hs1
  have hrw : (checkForMills b s1 v.x v.y).2.gameWinner = none := by
    rw [(checkForMills_preserves b _ v.x v.y).2.2.2.2.2.1]
    exact hwin
  have hrt : (checkForMills b s1 v.x v.y).2.tokens = tokens' :=
    (checkForMills_preserves b _ v.x v.y).1
  have hs2w :
      (checkForWin b (checkForMills b s1 v.x v.y).2).gameWinner =
        winnerOf b tokens' := by
    rw [checkForWin_gameWinner, hrt, hrw, Option.or_none]
  split
  · rw [switchPlayer_gameWinner]
    exact hs2w
  · exact hs2w

/-- C3 (amended): win detection runs after every placement, every normal
movement and every mill-removal relocation, and reports a winner exactly by
the hexagon-surround scan on the updated occupancy: a hexagon counts as
surrounded iff it has at least 6 member vertices, all occupied by the color;
red-eligible hexagons are checked before blue-eligible ones, so red is
preferred when both colors simultaneously have a fully occupied hexagon; a
win prevents the player switch after a movement or relocation and after a
non-final placement.  However a win on the final placement does not
short-circuit the Placement-to-Movement phase change: gameState still becomes
Movement and currentPlayer is set to red (the winner stays recorded and
blocks further play). -/
theorem win_detection_semantics (b : Board) :
    (∀ tokens n c, 1 ≤ n → n ≤ 7 →
      (isHexagonSurrounded b tokens n c = true ↔
        (b.hexMembers n).length ≥ 6 ∧ ∀ v ∈ b.hexMembers n,
          ∃ t, getTokenAt tokens v.x v.y = some t ∧ t.color = c)) ∧
    (∀ tokens, redWinHexagons.any (fun n => isHexagonSurrounded b tokens n .red) = true →
      winnerOf b tokens = some .red) ∧
    (∀ tokens, redWinHexagons.any (fun n => isHexagonSurrounded b tokens n .red) = false →
      blueWinHexagons.any (fun n => isHexagonSurrounded b tokens n .blue) = true →
      winnerOf b tokens = some .blue) ∧
    (∀ s v, getTokenAt s.tokens v.x v.y = none → s.gameWinner = none →
      s.gameState = .placement →
      ((handlePlacement b s v).gameWinner = winnerOf b (placeToken s v).tokens ∧
       ((handlePlacement b s v).gameState = .movement ↔
         ((placeToken s v).redTokensPlaced = maxTokensPerPlayer ∧
          (placeToken s v).blueTokensPlaced = maxTokensPerPlayer)) ∧
       (¬((placeToken s v).redTokensPlaced = maxTokensPerPlayer ∧
           (placeToken s v).blueTokensPlaced = maxTokensPerPlayer) →
         winnerOf b (placeToken s v).tokens ≠ none →
         (handlePlacement b s v).currentPlayer = s.currentPlayer) ∧
       ((placeToken s v).redTokensPlaced = maxTokensPerPlayer ∧
           (placeToken s v).blueTokensPlaced = maxTokensPerPlayer →
         (handlePlacement b s v).currentPlayer = Color.red))) ∧
    (∀ s v c, (handleMovement b s v).gameWinner = some c →
      (handleMovement b s v).currentPlayer = s.currentPlayer) ∧
    (∀ s v sel tokens' moved, s.millRemovalState = .removing →
      s.selectedVertex = some sel → getTokenAt s.tokens v.x v.y = none →
      moveSelectedToken s.tokens sel v.x v.y = some (tokens', moved) →
      s.gameWinner = none →
      (handleMovement b s v).gameWinner = winnerOf b tokens') ∧
    (∀ s v sel tokens' moved, s.millRemovalState = .idle →
      s.selectedVertex = some sel → getTokenAt s.tokens v.x v.y = none →
      isAdjacent sel v = true →
      moveSelectedToken s.tokens sel v.x v.y = some (tokens', moved) →
      s.gameWinner = none →
      (handleMovement b s v).gameWinner = winnerOf b tokens') :=
  ⟨fun tokens n c h1 h7 => isHexagonSurrounded_iff b tokens n c h1 h7,
   fun tokens h => winnerOf_red b tokens h,
   fun tokens hr h => winnerOf_blue b tokens hr h,
   fun s v he hw hp => handlePlacement_win_semantics b s v he hw hp,
   fun s v c h => handleMovement_win_no_switch b s v c h,
   fun s v sel tokens' moved hmr hsel he hmv hw =>
     relocation_runs_win_detection b s v sel tokens' moved hmr hsel he hmv hw,
   fun s v sel tokens' moved hmr hsel he hadj hmv hw =>
     movement_runs_win_detection b s v sel tokens' moved hmr hsel he hadj hmv hw⟩

/-- A board whose hexagon 1 has exactly six member vertices. -/
def winBoard : Board :=
  { vertices := [Pt.mk 0 0, Pt.mk 30 0, Pt.mk 60 0, Pt.mk 0 30, Pt.mk 30 30, Pt.mk 60 30]
    hexMembers := fun n =>
      if n = 1 then [Pt.mk 0 0, Pt.mk 30 0, Pt.mk 60 0, Pt.mk 0 30, Pt.mk 30 30, Pt.mk 60 30]
      else [] }

/-- A placement state one red placement away from both completing the red
quota and fully surrounding hexagon 1 with red. -/
def c3State : GameState :=
  { initialState with
    redTokensPlaced := 14
    blueTokensPlaced := 15
    tokens :=
      [Token.mk 0 0 .red, Token.mk 30 0 .red, Token.mk 60 0 .red,
       Token.mk 0 30 .red, Token.mk 30 30 .red] ++
      ((List.range 9).map (fun i => Token.mk (200 + 10 * (i : ℚ)) 0 .red)) ++
      ((List.range 15).map (fun i => Token.mk (200 + 10 * (i : ℚ)) 100 .blue)) }

/-- C3 as stated is false at this input: the 30th placement completes a red
win (gameWinner becomes red), yet the pending Placement-to-Movement phase
change is not short-circuited — gameState still becomes Movement and
currentPlayer is set to red for the movement phase. -/
theorem final_placement_win_no_short_circuit :
    (handlePlacement winBoard c3State (Pt.mk 60 30)).gameWinner = some Color.red ∧
    (handlePlacement winBoard c3State (Pt.mk 60 30)).gameState = Phase.movement ∧
    (handlePlacement winBoard c3State (Pt.mk 60 30)).currentPlayer = Color.red := by
  refine ⟨?_, ?_, ?_⟩
  · with_unfolding_all rfl
  · with_unfolding_all rfl
  · with_unfolding_all rfl

theorem win_detection_semantics_witness :
    (handlePlacement winBoard c3State (Pt.mk 60 30)).gameWinner =
      winnerOf winBoard (placeToken c3State (Pt.mk 60 30)).tokens ∧
    winnerOf winBoard (placeToken c3State (Pt.mk 60 30)).tokens = some Color.red ∧
    isHexagonSurrounded winBoard (placeToken c3State (Pt.mk 60 30)).tokens 1 .red = true ∧
    (handlePlacement winBoard c3State (Pt.mk 60 30)).currentPlayer = Color.red ∧
    (handleMovement demoBoard { c1State with selectedVertex := some (Pt.mk 0 0) }
        (Pt.mk 0 20)).gameWinner =
      winnerOf demoBoard [Token.mk 0 20 .red, Token.mk 20 0 .red, Token.mk 20 20 .red] := by
  refine ⟨?_, by with_unfolding_all rfl, ?_, ?_, ?_⟩
  · exact ((win_detection_semantics winBoard).2.2.2.1 c3State (Pt.mk 60 30)
      (by with_unfolding_all rfl) rfl rfl).1
  · refine ((win_detection_semantics winBoard).1 _ 1 .red (by omega) (by omega)).mpr ?_
    refine ⟨by with_unfolding_all rfl, ?_⟩
    exact of_decide_eq_true (by with_unfolding_all rfl)
  · exact ((win_detection_semantics winBoard).2.2.2.1 c3State (Pt.mk 60 30)
      (by with_unfolding_all rfl) rfl rfl).2.2.2
      ⟨by with_unfolding_all rfl, by with_unfolding_all rfl⟩
  · exact (win_detection_semantics demoBoard).2.2.2.2.2.2
      { c1State with selectedVertex := some (Pt.mk 0 0) } (Pt.mk 0 20) (Pt.mk 0 0)
      [Token.mk 0 20 .red, Token.mk 20 0 .red, Token.mk 20 20 .red] (Token.mk 0 20 .red)
      rfl rfl (by with_unfolding_all rfl) (by with_unfolding_all rfl)
      (by with_unfolding_all rfl) rfl

/-!
## C9 and C10: token conservation and occupancy exclusion
-/

/-- Tokens of a color on the board. -/
def countColor (c : Color) (tokens : List Token) : ℕ := (tokens.map Token.color).count c

/-- Two tokens are apart when they are not within the 1-unit occupancy
tolerance of each other on both axes. -/
def farApart (a b : Token) : Prop := ¬(|a.x - b.x| < 1 ∧ |a.y - b.y| < 1)

theorem switchPlayer_tokens (s : GameState) : (switchPlayer s).tokens = s.tokens := rfl

theorem switchPlayer_gameState (s : GameState) :
    (switchPlayer s).gameState = s.gameState := rfl

theorem moveSelectedToken_map_color {ts : List Token} {sel : Pt} {x y : ℚ}
    {ts' : List Token} {mv : Token}
    (h : moveSelectedToken ts sel x y = some (ts', mv)) :
    ts'.map Token.color = ts.map Token.color := by
  induction ts generalizing ts' mv with
  | nil => cases h
  | cons t rest ih =>
    unfold moveSelectedToken at h
    split at h
    · cases h
      rfl
    · split at h
      · next ts'' mv' heq =>
        cases h
        show Token.color t :: ts''.map Token.color = Token.color t :: rest.map Token.color
        rw [ih heq]
      · cases h

theorem moveSelectedToken_mem {ts : List Token} {sel : Pt} {x y : ℚ}
    {ts' : List Token} {mv : Token}
    (h : moveSelectedToken ts sel x y = some (ts', mv)) :
    ∀ u ∈ ts', u ∈ ts ∨ (u.x = x ∧ u.y = y) := by
  induction ts generalizing ts' mv with
  | nil => cases h
  | cons t rest ih =>
    unfold moveSelectedToken at h
    split at h
    · cases h
      intro u hu
      rcases List.mem_cons.mp hu with rfl | hu'
      · exact Or.inr ⟨rfl, rfl⟩
      · exact Or.inl (List.mem_cons_of_mem _ hu')
    · split at h
      · next ts'' mv' heq =>
        cases h
        intro u hu
        rcases List.mem_cons.mp hu with rfl | hu'
        · exact Or.inl (List.mem_cons_self _ _)
        · rcases ih heq u hu' with hin | hxy
          · exact Or.inl (List.mem_cons_of_mem _ hin)
          · exact Or.inr hxy
      · cases h

theorem getTokenAt_none_far {tokens : List Token} {x y : ℚ}
    (h : getTokenAt tokens x y = none) :
    ∀ t ∈ tokens, ¬(|t.x - x| < 1 ∧ |t.y - y| < 1) := by
  intro t ht
  have := List.find?_eq_none.mp h t ht
  simpa using this

theorem moveSelectedToken_pairwise {ts : List Token} {sel : Pt} {x y : ℚ}
    {ts' : List Token} {mv : Token}
    (hp : ts.Pairwise farApart)
    (hfar : ∀ t ∈ ts, ¬(|t.x - x| < 1 ∧ |t.y - y| < 1))
    (h : moveSelectedToken ts sel x y = some (ts', mv)) :
    ts'.Pairwise farApart := by
  induction ts generalizing ts' mv with
  | nil => cases h
  | cons t rest ih =>
    unfold moveSelectedToken at h
    split at h
    · cases h
      rw [List.pairwise_cons] at hp ⊢
      refine ⟨?_, hp.2⟩
      intro u hu
      have hu' := hfar u (List.mem_cons_of_mem _ hu)
      unfold farApart
      rintro ⟨h1, h2⟩
      rw [abs_sub_comm] at h1 h2
      exact hu' ⟨h1, h2⟩
    · split at h
      · next ts'' mv' heq =>
        cases h
        rw [List.pairwise_cons] at hp ⊢
        refine ⟨?_, ih hp.2 (fun u hu => hfar u (List.mem_cons_of_mem _ hu)) heq⟩
        intro u hu
        rcases moveSelectedToken_mem heq u hu with hin | ⟨hx, hy⟩
        · exact hp.1 u hin
        · have := hfar t (List.mem_cons_self _ _)
          unfold farApart
          rintro ⟨h1, h2⟩
          rw [hx] at h1
          rw [hy] at h2
          exact this ⟨h1, h2⟩
      · cases h

theorem checkForMills_tokens (b : Board) (s : GameState) (x y : ℚ) :
    (checkForMills b s x y).2.tokens = s.tokens := (checkForMills_preserves b s x y).1

theorem handleMovement_map_color (b : Board) (s : GameState) (v : Pt) :
    (handleMovement b s v).tokens.map Token.color = s.tokens.map Token.color := by
  unfold handleMovement
  dsimp only
  repeat' split
  all_goals
    repeat
      first
        | rfl
        | exact moveSelectedToken_map_color (by assumption)
        | rw [switchPlayer_tokens]
        | rw [checkForWin_tokens]
        | rw [checkForMills_tokens]
        | dsimp only

theorem handleMovement_gameState (b : Board) (s : GameState) (v : Pt) :
    (handleMovement b s v).gameState = s.gameState := by
  unfold handleMovement
  dsimp only
  repeat' split
  all_goals
    repeat
      first
        | rfl
        | rw [switchPlayer_gameState]
        | rw [checkForWin_gameState]
        | rw [(checkForMills_preserves b _ _ _).2.1]
        | dsimp only

theorem handleMovement_redTokensPlaced (b : Board) (s : GameState) (v : Pt) :
    (handleMovement b s v).redTokensPlaced = s.redTokensPlaced := by
  unfold handleMovement
  dsimp only
  repeat' split
  all_goals
    repeat
      first
        | rfl
        | rw [switchPlayer_fields _ |>.2.1]
        | rw [checkForWin_redTokensPlaced]
        | rw [(checkForMills_preserves b _ _ _).2.2.2.1]
        | dsimp only

theorem handleMovement_blueTokensPlaced (b : Board) (s : GameState) (v : Pt) :
    (handleMovement b s v).blueTokensPlaced = s.blueTokensPlaced := by
  unfold handleMovement
  dsimp only
  repeat' split
  all_goals
    repeat
      first
        | rfl
        | rw [switchPlayer_fields _ |>.2.2.1]
        | rw [checkForWin_blueTokensPlaced]
        | rw [(checkForMills_preserves b _ _ _).2.2.2.2.1]
        | dsimp only

theorem handleMovement_pairwise (b : Board) (s : GameState) (v : Pt)
    (hp : s.tokens.Pairwise farApart) :
    (handleMovement b s v).tokens.Pairwise farApart := by
  unfold handleMovement
  dsimp only
  repeat' split
  all_goals
    repeat
      first
        | exact hp
        | exact moveSelectedToken_pairwise hp (getTokenAt_none_far (by assumption))
            (by assumption)
        | rw [switchPlayer_tokens]
        | rw [checkForWin_tokens]
        | rw [checkForMills_tokens]
        | dsimp only

theorem handlePlacement_tokens (b : Board) (s : GameState) (v : Pt)
    (hempty : getTokenAt s.tokens v.x v.y = none) :
    (handlePlacement b s v).tokens = s.tokens ++ [Token.mk v.x v.y s.currentPlayer] := by
  unfold handlePlacement
  rw [hempty]
  simp only [Option.isSome_none, Bool.false_eq_true, if_false]
  split
  · show (checkForWin b (placeToken s v)).tokens = _
    rw [checkForWin_tokens, (placeToken_fields s v).2.2.2.1]
  · split
    · rw [switchPlayer_tokens, checkForWin_tokens, (placeToken_fields s v).2.2.2.1]
    · rw [checkForWin_tokens, (placeToken_fields s v).2.2.2.1]

theorem countColor_append_one (c : Color) (ts : List Token) (t : Token) :
    countColor c (ts ++ [t]) = countColor c ts + (if t.color = c then 1 else 0) := by
  unfold countColor
  rw [List.map_append, List.count_append]
  simp [List.count_cons]

/-- The counting invariant maintained by every click: the board carries
exactly as many tokens of each color as the placement counters say, the
counters never exceed the quota, during placement (while no winner froze the
game) the turn alternation keeps red at most one ahead, placement ends before
both counters reach the quota, and the movement phase starts exactly with
full quotas. -/
def CountsInv (s : GameState) : Prop :=
  countColor .red s.tokens = s.redTokensPlaced ∧
  countColor .blue s.tokens = s.blueTokensPlaced ∧
  s.redTokensPlaced ≤ maxTokensPerPlayer ∧
  s.blueTokensPlaced ≤ maxTokensPerPlayer ∧
  (s.gameState = .placement → s.gameWinner = none →
    ((s.currentPlayer = .red ∧ s.redTokensPlaced = s.blueTokensPlaced) ∨
     (s.currentPlayer = .blue ∧ s.redTokensPlaced = s.blueTokensPlaced + 1))) ∧
  (s.gameState = .placement →
    ¬(s.redTokensPlaced = maxTokensPerPlayer ∧ s.blueTokensPlaced = maxTokensPerPlayer)) ∧
  (s.gameState = .movement →
    s.redTokensPlaced = maxTokensPerPlayer ∧ s.blueTokensPlaced = maxTokensPerPlayer)

theorem initial_CountsInv : CountsInv initialState := by
  refine ⟨rfl, rfl, Nat.zero_le _, Nat.zero_le _, ?_, ?_, ?_⟩
  · intro _ _
    exact Or.inl ⟨rfl, rfl⟩
  · intro _ h
    have h0 : initialState.redTokensPlaced = 0 := rfl
    have h15 : maxTokensPerPlayer = 15 := rfl
    omega
  · intro h
    cases h

theorem handleMovement_CountsInv (b : Board) (s : GameState) (v : Pt)
    (hphase : s.gameState = .movement) (hinv : CountsInv s) :
    CountsInv (handleMovement b s v) := by
  obtain ⟨hcr, hcb, hbr, hbb, -, -, hmov⟩ := hinv
  have hg := handleMovement_gameState b s v
  have hr := handleMovement_redTokensPlaced b s v
  have hbl := handleMovement_blueTokensPlaced b s v
  have hm := handleMovement_map_color b s v
  have hgm : (handleMovement b s v).gameState = .movement := by rw [hg, hphase]
  refine ⟨?_, ?_, ?_, ?_, ?_, ?_, ?_⟩
  · unfold countColor at hcr ⊢
    rw [hm, hr]
    exact hcr
  · unfold countColor at hcb ⊢
    rw [hm, hbl]
    exact hcb
  · rw [hr]; exact hbr
  · rw [hbl]; exact hbb
  · intro hp
    rw [hgm] at hp
    cases hp
  · intro hp
    rw [hgm] at hp
    cases hp
  · intro _
    rw [hr, hbl]
    exact hmov hphase

theorem handlePlacement_CountsInv (b : Board) (s : GameState) (v : Pt)
    (hphase : s.gameState = .placement) (hwin : s.gameWinner = none)
    (hinv : CountsInv s) : CountsInv (handlePlacement b s v) := by
  obtain ⟨hcr, hcb, hbr, hbb, halt, hnb, hmov⟩ := hinv
  by_cases hocc : (getTokenAt s.tokens v.x v.y).isSome = true
  · unfold handlePlacement
    rw [if_pos hocc]
    exact ⟨hcr, hcb, hbr, hbb, halt, hnb, hmov⟩
  · have hempty : getTokenAt s.tokens v.x v.y = none := by
      cases h : getTokenAt s.tokens v.x v.y with
      | none => rfl
      | some t => rw [h] at hocc; simp at hocc
    obtain ⟨hpg, hpc, hpw, hpt, hpr, hpb⟩ := placeToken_fields s v
    have htok := handlePlacement_tokens b s v hempty
    have h1t : (checkForWin b (placeToken s v)).tokens =
        s.tokens ++ [Token.mk v.x v.y s.currentPlayer] := by
      rw [checkForWin_tokens, hpt]
    have h1r := checkForWin_redTokensPlaced b (placeToken s v)
    have h1b := checkForWin_blueTokensPlaced b (placeToken s v)
    have h1g : (checkForWin b (placeToken s v)).gameState = Phase.placement := by
      rw [checkForWin_gameState, hpg, hphase]
    have h1c : (checkForWin b (placeToken s v)).currentPlayer = s.currentPlayer := by
      rw [checkForWin_currentPlayer, hpc]
    have hcount_r : countColor .red (s.tokens ++ [Token.mk v.x v.y s.currentPlayer]) =
        s.redTokensPlaced + (if s.currentPlayer = .red then 1 else 0) := by
      rw [countColor_append_one, hcr]
    have hcount_b : countColor .blue (s.tokens ++ [Token.mk v.x v.y s.currentPlayer]) =
        s.blueTokensPlaced + (if s.currentPlayer = .blue then 1 else 0) := by
      rw [countColor_append_one, hcb]
    unfold handlePlacement
    rw [if_neg hocc]
    rcases halt hphase hwin with ⟨hcur, heq⟩ | ⟨hcur, heq⟩
    · -- red to place and red = blue: the quota cannot complete on this move
      have hcur' : ¬s.currentPlayer = Color.blue := by rw [hcur]; intro h; cases h
      have hr' : (checkForWin b (placeToken s v)).redTokensPlaced =
          s.redTokensPlaced + 1 := by rw [h1r, hpr, if_pos hcur]
      have hb' : (checkForWin b (placeToken s v)).blueTokensPlaced =
          s.blueTokensPlaced := by rw [h1b, hpb, if_pos hcur]
      have hred_le : s.redTokensPlaced ≤ 14 := by
        have := hnb hphase
        unfold maxTokensPerPlayer at *
        omega
      rw [if_neg (by rw [hr', hb']; unfold maxTokensPerPlayer at *; omega)]
      have hcnt_r : countColor .red (checkForWin b (placeToken s v)).tokens =
          s.redTokensPlaced + 1 := by rw [h1t, hcount_r, if_pos hcur]
      have hcnt_b : countColor .blue (checkForWin b (placeToken s v)).tokens =
          s.blueTokensPlaced := by rw [h1t, hcount_b, if_neg hcur', Nat.add_zero]
      split
      · -- no winner: switch to blue
        next hw1 =>
        have hsw := switchPlayer_fields (checkForWin b (placeToken s v))
        have hswc : (switchPlayer (checkForWin b (placeToken s v))).currentPlayer =
            Color.blue := by
          unfold switchPlayer
          dsimp only
          rw [h1c, hcur, if_pos rfl]
        refine ⟨?_, ?_, ?_, ?_, ?_, ?_, ?_⟩
        · unfold countColor at hcnt_r ⊢
          rw [hsw.2.2.2.1, hsw.2.1, hr']
          exact hcnt_r
        · unfold countColor at hcnt_b ⊢
          rw [hsw.2.2.2.1, hsw.2.2.1, hb']
          exact hcnt_b
        · rw [hsw.2.1, hr']
          unfold maxTokensPerPlayer
          omega
        · rw [hsw.2.2.1, hb']
          exact hbb
        · intro _ _
          exact Or.inr ⟨hswc, by rw [hsw.2.1, hsw.2.2.1, hr', hb', heq]⟩
        · intro _
          rw [hsw.2.1, hsw.2.2.1, hr', hb']
          unfold maxTokensPerPlayer at *
          omega
        · intro hmv
          rw [hsw.1, h1g] at hmv
          cases hmv
      · -- a winner froze the game during placement
        next hw1 =>
        refine ⟨?_, ?_, ?_, ?_, ?_, ?_, ?_⟩
        · unfold countColor at hcnt_r ⊢
          rw [hr']
          exact hcnt_r
        · unfold countColor at hcnt_b ⊢
          rw [hb']
          exact hcnt_b
        · rw [hr']
          unfold maxTokensPerPlayer
          omega
        · rw [hb']
          exact hbb
        · intro _ hwn
          exact absurd hwn hw1
        · intro _
          rw [hr', hb']
          unfold maxTokensPerPlayer at *
          omega
        · intro hmv
          rw [h1g] at hmv
          cases hmv
    · -- blue to place and red = blue + 1: quota completes iff red is full
      have hcur' : ¬s.currentPlayer = Color.red := by rw [hcur]; intro h; cases h
      have hr' : (checkForWin b (placeToken s v)).redTokensPlaced =
          s.redTokensPlaced := by rw [h1r, hpr, if_neg hcur']
      have hb' : (checkForWin b (placeToken s v)).blueTokensPlaced =
          s.blueTokensPlaced + 1 := by rw [h1b, hpb, if_neg hcur']
      have hcnt_r : countColor .red (checkForWin b (placeToken s v)).tokens =
          s.redTokensPlaced := by rw [h1t, hcount_r, if_neg hcur', Nat.add_zero]
      have hcnt_b : countColor .blue (checkForWin b (placeToken s v)).tokens =
          s.blueTokensPlaced + 1 := by rw [h1t, hcount_b, if_pos hcur]
      by_cases hquota : (checkForWin b (placeToken s v)).redTokensPlaced =
          maxTokensPerPlayer ∧
          (checkForWin b (placeToken s v)).blueTokensPlaced = maxTokensPerPlayer
      · rw [if_pos hquota]
        refine ⟨?_, ?_, ?_, ?_, ?_, ?_, ?_⟩
        · unfold countColor at hcnt_r ⊢
          exact hcnt_r.trans (by rw [← hr'])
        · unfold countColor at hcnt_b ⊢
          exact hcnt_b.trans (by rw [← hb'])
        · show (checkForWin b (placeToken s v)).redTokensPlaced ≤ maxTokensPerPlayer
          omega
        · show (checkForWin b (placeToken s v)).blueTokensPlaced ≤ maxTokensPerPlayer
          omega
        · intro hpl
          cases hpl
        · intro hpl
          cases hpl
        · intro _
          exact hquota
      · rw [if_neg hquota]
        have hblue_le : s.blueTokensPlaced ≤ 14 := by
          rw [hr', hb'] at hquota
          unfold maxTokensPerPlayer at *
          omega
        split
        · next hw1 =>
          have hsw := switchPlayer_fields (checkForWin b (placeToken s v))
          have hswc : (switchPlayer (checkForWin b (placeToken s v))).currentPlayer =
              Color.red := by
            unfold switchPlayer
            dsimp only
            rw [h1c, hcur]
            rw [if_neg (show ¬Color.blue = Color.red from fun h => by cases h)]
          refine ⟨?_, ?_, ?_, ?_, ?_, ?_, ?_⟩
          · unfold countColor at hcnt_r ⊢
            rw [hsw.2.2.2.1, hsw.2.1, hr']
            exact hcnt_r
          · unfold countColor at hcnt_b ⊢
            rw [hsw.2.2.2.1, hsw.2.2.1, hb']
            exact hcnt_b
          · rw [hsw.2.1, hr']
            exact hbr
          · rw [hsw.2.2.1, hb']
            unfold maxTokensPerPlayer
            omega
          · intro _ _
            exact Or.inl ⟨hswc, by rw [hsw.2.1, hsw.2.2.1, hr', hb', heq]⟩
          · intro _
            rw [hsw.2.1, hsw.2.2.1, hr', hb']
            rw [hr', hb'] at hquota
            exact hquota
          · intro hmv
            rw [hsw.1, h1g] at hmv
            cases hmv
        · next hw1 =>
          refine ⟨?_, ?_, ?_, ?_, ?_, ?_, ?_⟩
          · unfold countColor at hcnt_r ⊢
            rw [hr']
            exact hcnt_r
          · unfold countColor at hcnt_b ⊢
            rw [hb']
            exact hcnt_b
          · rw [hr']
            exact hbr
          · rw [hb']
            unfold maxTokensPerPlayer
            omega
          · intro _ hwn
            exact absurd hwn hw1
          · intro _
            rw [hr', hb']
            rw [hr', hb'] at hquota
            exact hquota
          · intro hmv
            rw [h1g] at hmv
            cases hmv

theorem counts_invariant (b : Board) {s : GameState} (h : Reachable b s) : CountsInv s := by
  induction h with
  | init => exact initial_CountsInv
  | reset _ ih => exact initial_CountsInv
  | click x y hs ih =>
    unfold handleClickAt
    split
    · exact ih
    · next hwinner =>
      split
      · exact ih
      · split
        · next hphase => exact handlePlacement_CountsInv b _ _ hphase (not_not.mp hwinner) ih
        · next hphase => exact handleMovement_CountsInv b _ _ hphase ih

/-- C9: tokens are never deleted.  Every movement click (normal move or
mill-removal relocation) preserves the list of token colors exactly — tokens
are only repositioned, a captured opponent token included; a placement on an
empty vertex appends exactly one token of the current player's color and is
the only operation that creates tokens; consequently every reachable
movement-phase state (the phase entered when both 15-token quotas are
complete) carries exactly 15 red and 15 blue tokens until a reset. -/
theorem tokens_never_deleted (b : Board) :
    (∀ (s : GameState) (v : Pt),
      (handleMovement b s v).tokens.map Token.color = s.tokens.map Token.color) ∧
    (∀ (s : GameState) (v : Pt), getTokenAt s.tokens v.x v.y = none →
      (handlePlacement b s v).tokens.map Token.color =
        s.tokens.map Token.color ++ [s.currentPlayer]) ∧
    (∀ s : GameState, Reachable b s → s.gameState = .movement →
      countColor .red s.tokens = maxTokensPerPlayer ∧
      countColor .blue s.tokens = maxTokensPerPlayer) := by
  refine ⟨fun s v => handleMovement_map_color b s v, ?_, ?_⟩
  · intro s v h
    rw [handlePlacement_tokens b s v h, List.map_append]
    rfl
  · intro s hs hphase
    obtain ⟨hcr, hcb, -, -, -, -, hmov⟩ := counts_invariant b hs
    obtain ⟨h15r, h15b⟩ := hmov hphase
    exact ⟨by rw [hcr, h15r], by rw [hcb, h15b]⟩

theorem reachable_clickRun (b : Board) {s : GameState} (h : Reachable b s)
    (ps : List (ℚ × ℚ)) : Reachable b (clickRun b s ps) := by
  induction ps generalizing s with
  | nil => exact h
  | cons p ps ih => exact ih (Reachable.click p.1 p.2 h)

/-- The 30 placement clicks of the demonstration run as raw click points. -/
def demoClicks : List (ℚ × ℚ) := (List.range 30).map (fun i => ((100 + 50 * (i : ℚ)), 0))

set_option maxRecDepth 40000 in
theorem tokens_never_deleted_witness :
    countColor .red (clickRun demoBoard initialState demoClicks).tokens =
      maxTokensPerPlayer ∧
    countColor .blue (clickRun demoBoard initialState demoClicks).tokens =
      maxTokensPerPlayer :=
  (tokens_never_deleted demoBoard).2.2 _
    (reachable_clickRun demoBoard Reachable.init demoClicks)
    (by with_unfolding_all rfl)

theorem sep_handlePlacement (b : Board) (s : GameState) (v : Pt)
    (hp : s.tokens.Pairwise farApart) :
    (handlePlacement b s v).tokens.Pairwise farApart := by
  by_cases hocc : (getTokenAt s.tokens v.x v.y).isSome = true
  · unfold handlePlacement
    rw [if_pos hocc]
    exact hp
  · have hempty : getTokenAt s.tokens v.x v.y = none := by
      cases h : getTokenAt s.tokens v.x v.y with
      | none => rfl
      | some t => rw [h] at hocc; simp at hocc
    rw [handlePlacement_tokens b s v hempty, List.pairwise_append]
    refine ⟨hp, List.pairwise_singleton _ _, ?_⟩
    intro a ha t' ht'
    rw [List.mem_singleton] at ht'
    subst ht'
    exact getTokenAt_none_far hempty a ha

/-- C10: in every reachable game state the token positions are pairwise
distinct — no two tokens lie within the 1-unit occupancy tolerance of each
other — because placement, normal movement and mill-removal relocation each
require the destination to be empty, and every transition preserves the
separation. -/
theorem tokens_pairwise_separated (b : Board) {s : GameState} (hs : Reachable b s) :
    s.tokens.Pairwise (fun a c => ¬(|a.x - c.x| < 1 ∧ |a.y - c.y| < 1)) := by
  have h : s.tokens.Pairwise farApart := by
    induction hs with
    | init => exact List.Pairwise.nil
    | reset _ ih => exact List.Pairwise.nil
    | click x y hs ih =>
      unfold handleClickAt
      split
      · exact ih
      · split
        · exact ih
        · split
          · exact sep_handlePlacement b _ _ ih
          · exact handleMovement_pairwise b _ _ ih
  exact h

theorem tokens_pairwise_separated_witness :
    (handleClickAt demoBoard (handleClickAt demoBoard initialState 100 0) 150 0).tokens.Pairwise
      (fun a c => ¬(|a.x - c.x| < 1 ∧ |a.y - c.y| < 1)) :=
  tokens_pairwise_separated demoBoard
    (Reachable.click 150 0 (Reachable.click 100 0 Reachable.init))

end Kensington
